import Mathlib

/-!
Verification development for the nxbindgen source-to-source generator.

The C-grammar engine (`nxbindgen/c99/pygenerator.py`, class `PyGenerator`)
is shallowly embedded below: the pycparser AST fragment the generator
consumes becomes the inductive type `CNode`, the generator's mutable
instance state (`_state`, `_parent`, `_skip`, `_indent_level`) becomes the
record `St`, and every `visit_*` method becomes a case of the fuel-indexed
function `visit`.  Python exceptions (NotImplementedError, KeyError,
AttributeError, IndexError) are modelled with `Except String`; running out
of fuel yields the distinguished error "fuel", which never occurs for the
concrete inputs used in the theorems.  The field `minIndent` of `St` is
instrumentation only: it records the minimum value ever assigned to the
indentation counter, so that "the indentation depth never becomes
negative" can be stated; every write to the counter goes through
`setIndent`.
-/

namespace NB

/-- Binary operators of the C grammar, exactly the keys of
`PyGenerator.precedence_map`; pycparser produces no other binary ops. -/
inductive BinOp where
  | lor | land | bor | bxor | band
  | beq | bne | bgt | bge | blt | ble
  | shr | shl | add | sub | mul | div | mod
  deriving DecidableEq, Repr

/-- `PyGenerator.precedence_map`: higher numbers bind more strongly. -/
def binPrec : BinOp → Nat
  | .lor => 0
  | .land => 1
  | .bor => 2
  | .bxor => 3
  | .band => 4
  | .beq => 5 | .bne => 5
  | .bgt => 6 | .bge => 6 | .blt => 6 | .ble => 6
  | .shr => 7 | .shl => 7
  | .add => 8 | .sub => 8
  | .mul => 9 | .div => 9 | .mod => 9

/-- C spelling of a binary operator (the `op` attribute of a pycparser
`BinaryOp` node). -/
def binOpC : BinOp → String
  | .lor => "||"
  | .land => "&&"
  | .bor => "|"
  | .bxor => "^"
  | .band => "&"
  | .beq => "==" | .bne => "!="
  | .bgt => ">" | .bge => ">=" | .blt => "<" | .ble => "<="
  | .shr => ">>" | .shl => "<<"
  | .add => "+" | .sub => "-"
  | .mul => "*" | .div => "/" | .mod => "%"

/-- `PyGenerator.binary_op_map` applied by `visit_BinaryOp`:
`||` and `&&` are spelled `or` / `and`, everything else keeps its C
spelling (`binary_op_map.get(n.op, n.op)`). -/
def binOpPy : BinOp → String
  | .lor => "or"
  | .land => "and"
  | op => binOpC op

/-- The pycparser AST fragment consumed by the generator.  Field layout
follows the pycparser node classes; `Option` marks attributes that can be
`None`.  `Cast` drops its `to_type` child because `visit_Cast` never reads
it.  Node kinds the claims never reach (Struct/Union/Enum bodies, Label,
Goto, StaticAssert, CompoundLiteral) are outside the modelled universe. -/
inductive CNode where
  | Constant (ctype : String) (value : String)
  | ID (name : String)
  | Pragma (string : String)
  | ArrayRef (name subscript : CNode)
  | StructRef (name : CNode) (reftype : String) (field : CNode)
  | FuncCall (name : CNode) (args : Option CNode)
  | UnaryOp (op : String) (expr : CNode)
  | BinaryOp (op : BinOp) (left right : CNode)
  | Assignment (op : String) (lvalue rvalue : CNode)
  | Cast (expr : CNode)
  | ExprList (exprs : List CNode)
  | InitList (exprs : List CNode)
  | TernaryOp (cond iftrue iffalse : CNode)
  | If (cond : Option CNode) (iftrue : CNode) (iffalse : Option CNode)
  | For (init cond next : Option CNode) (stmt : CNode)
  | While (cond : CNode) (stmt : CNode)
  | DoWhile (cond : Option CNode) (stmt : CNode)
  | Switch (cond : CNode) (stmt : CNode)
  | Case (expr : CNode) (stmts : List CNode)
  | Default (stmts : List CNode)
  | Break
  | Continue
  | Return (expr : Option CNode)
  | Compound (blockItems : List CNode)
  | EmptyStatement
  | Decl (name : Option String) (bitsize init : Option CNode) (declType : CNode)
  | DeclList (decls : List CNode)
  | FuncDef (decl : CNode) (paramDecls : List CNode) (body : CNode)
  | FileAST (ext : List CNode)
  | Typedef (declType : CNode)
  | TypeDecl (declname : Option String) (type : CNode)
  | IdentifierType (names : List String)
  | PtrDecl (type : CNode)
  | ArrayDecl (type : CNode)
  | FuncDecl (args : Option CNode) (type : CNode)
  | ParamList (params : List CNode)
  | Typename (name : Option String) (type : CNode)
  | EllipsisParam

/-- Python class name of a node, as used for the `self._skip` lookup and
`visit_<name>` dispatch in `PyGenerator.visit`. -/
def clsName : CNode → String
  | .Constant .. => "Constant"
  | .ID .. => "ID"
  | .Pragma .. => "Pragma"
  | .ArrayRef .. => "ArrayRef"
  | .StructRef .. => "StructRef"
  | .FuncCall .. => "FuncCall"
  | .UnaryOp .. => "UnaryOp"
  | .BinaryOp .. => "BinaryOp"
  | .Assignment .. => "Assignment"
  | .Cast .. => "Cast"
  | .ExprList .. => "ExprList"
  | .InitList .. => "InitList"
  | .TernaryOp .. => "TernaryOp"
  | .If .. => "If"
  | .For .. => "For"
  | .While .. => "While"
  | .DoWhile .. => "DoWhile"
  | .Switch .. => "Switch"
  | .Case .. => "Case"
  | .Default .. => "Default"
  | .Break => "Break"
  | .Continue => "Continue"
  | .Return .. => "Return"
  | .Compound .. => "Compound"
  | .EmptyStatement => "EmptyStatement"
  | .Decl .. => "Decl"
  | .DeclList .. => "DeclList"
  | .FuncDef .. => "FuncDef"
  | .FileAST .. => "FileAST"
  | .Typedef .. => "Typedef"
  | .TypeDecl .. => "TypeDecl"
  | .IdentifierType .. => "IdentifierType"
  | .PtrDecl .. => "PtrDecl"
  | .ArrayDecl .. => "ArrayDecl"
  | .FuncDecl .. => "FuncDecl"
  | .ParamList .. => "ParamList"
  | .Typename .. => "Typename"
  | .EllipsisParam => "EllipsisParam"

/-- `PyGenerator._is_simple_node`: node kinds that always bind more
tightly than any operator; the generator additionally treats reduced
casts and the reduced pointer unary operators as simple. -/
def isSimpleNode : CNode → Bool
  | .Cast _ => true
  | .UnaryOp op _ => op == "&" || op == "*"
  | .Constant .. => true
  | .ID _ => true
  | .ArrayRef .. => true
  | .StructRef .. => true
  | .FuncCall .. => true
  | _ => false

/-- `PyGenerator._is_single_node`. -/
def isSingleNode : CNode → Bool
  | .BinaryOp .. => true
  | .UnaryOp .. => true
  | .FuncCall .. => true
  | .Constant .. => true
  | .ID _ => true
  | .Cast _ => true
  | .StructRef .. => true
  | _ => false

/-- Python whitespace, as stripped by `str.strip` and `str.lstrip`. -/
def pyIsSpace (c : Char) : Bool :=
  c == ' ' || c == '\t' || c == '\n' || c == '\r' || c.toNat == 11 || c.toNat == 12

/-- ASCII `str.lower` (sufficient for the literal suffixes it is
applied to). -/
def strToLower (s : String) : String :=
  String.mk (s.data.map (fun c => if 'A' ≤ c && c ≤ 'Z' then Char.ofNat (c.toNat + 32) else c))

/-- Python `str.strip()` (no argument form). -/
def strTrim (s : String) : String :=
  String.mk (((s.data.dropWhile pyIsSpace).reverse.dropWhile pyIsSpace).reverse)

/-- Helper for `str.split('\n')`. -/
def splitNlGo : List Char → List Char → List String
  | [], cur => [String.mk cur.reverse]
  | c :: rest, cur =>
    if c == '\n' then String.mk cur.reverse :: splitNlGo rest []
    else splitNlGo rest (c :: cur)

/-- Python `str.split('\n')`. -/
def strSplitNl (s : String) : List String := splitNlGo s.data []

/-- Digit-string value used by `pyInt`. -/
def digitsVal : List Char → Option Nat :=
  go (some 0)
where
  go : Option Nat → List Char → Option Nat
  | acc, [] => acc
  | acc, c :: r =>
    if c.isDigit then go (acc.map (fun a => a * 10 + (c.toNat - 48))) r else none

/-- Character class of `RE_LITERAL_SUFFIX`'s first group,
`[0-9a-f.x]` with `re.IGNORECASE`. -/
def isLitChar (c : Char) : Bool :=
  c.isDigit || ('a' ≤ c && c ≤ 'f') || ('A' ≤ c && c ≤ 'F')
    || c == '.' || c == 'x' || c == 'X'

/-- The alternatives of `RE_LITERAL_SUFFIX`'s second group (matched
case-insensitively).  Suffix letters (l, u, z) are disjoint from the
first group's class, so the full regex match splits deterministically:
a maximal class prefix followed by exactly one suffix. -/
def litSuffixes : List String := ["ull", "ll", "ul", "l", "uz", "u", "z"]

/-- `PyGenerator._convert_literal`: strip an integer suffix matched by
`RE_LITERAL_SUFFIX`, then drop a trailing lowercase f from a literal
containing a dot. -/
def convertLiteral (v : String) : String :=
  let headChars := v.data.takeWhile isLitChar
  let tail := String.mk (v.data.drop headChars.length)
  let stripped :=
    if headChars.length > 0 && litSuffixes.contains (strToLower tail) then
      String.mk headChars
    else v
  if stripped.data.contains '.' && stripped.data.getLast? == some 'f' then
    String.mk stripped.data.dropLast
  else stripped

/-- `PyGenerator._nstrip`: drop blank (whitespace-only) lines and join
the remainder with newlines. -/
def nstrip (value : String) : String :=
  String.intercalate "\n"
    (((strSplitNl value).map (fun x => if strTrim x == "" then "" else x)).filter
      (fun x => x != ""))

/-- Python `str.lstrip()` as used on the elif branch of `visit_If`. -/
def pyLstrip (s : String) : String := String.mk (s.data.dropWhile pyIsSpace)

/-- `PyGenerator.types_map`. -/
def typesMap : List (String × String) :=
  [("List[uint8_t]", "bytes"),
   ("List[char]", "str"),
   ("int32_t", "int"),
   ("uint32_t", "int"),
   ("int64_t", "int"),
   ("uint64_t", "int"),
   ("size_t", "int"),
   ("double", "float"),
   ("void", "None")]

/-- `PyGenerator._map_type`. -/
def mapType (c : String) : String := (typesMap.lookup c).getD c

/-- `DEFAULT_INDENT * k` for a Python int `k` (negative repeat counts
give the empty string, as in Python). -/
def makeIndentAt (lvl : Int) : String :=
  String.join (List.replicate lvl.toNat "    ")

/-- The `Context` IntFlag of the generator. -/
inductive CtxFlag where
  | FuncProto | FuncBody | FuncArgs
  deriving DecidableEq, Repr

/-- Generator instance state: the `_state` flag bits, `_parent`,
`_skip` and `_indent_level` of `PyGenerator`, plus the `minIndent`
instrumentation (minimum value ever assigned to `_indent_level`). -/
structure St where
  funcProto : Bool
  funcBody : Bool
  funcArgs : Bool
  parent : Option CNode
  skip : List String
  indentLevel : Int
  minIndent : Int

/-- State of a freshly constructed generator. -/
def initSt : St :=
  { funcProto := false, funcBody := false, funcArgs := false,
    parent := none, skip := [], indentLevel := 0, minIndent := 0 }

/-- Every assignment to `_indent_level` goes through this helper so the
instrumentation field tracks the minimum value ever taken. -/
def setIndent (s : St) (v : Int) : St :=
  { s with indentLevel := v, minIndent := min s.minIndent v }

/-- `self._make_indent(extra)`. -/
def makeIndent (s : St) (extra : Int) : String :=
  makeIndentAt (s.indentLevel + extra)

/-- `self._state |= flag` for the optional flag argument of `visit`. -/
def applyFlag : Option CtxFlag → St → St
  | none, s => s
  | some .FuncProto, s => { s with funcProto := true }
  | some .FuncBody, s => { s with funcBody := true }
  | some .FuncArgs, s => { s with funcArgs := true }

/-- `self._state &= ~flag` on exit from `visit`. -/
def clearFlag : Option CtxFlag → St → St
  | none, s => s
  | some .FuncProto, s => { s with funcProto := false }
  | some .FuncBody, s => { s with funcBody := false }
  | some .FuncArgs, s => { s with funcArgs := false }

/-- `set.add` on `self._skip` (no-op when already present). -/
def skipAdd (l : List String) (x : String) : List String :=
  if l.contains x then l else l ++ [x]

/-- `PyGenerator.unary_op_map.get(op, op)`. -/
def unaryOpPy (op : String) : String :=
  if op == "&" then "" else if op == "*" then "" else
  if op == "!" then "not " else op

/-- Result of a visit: rendered text plus the updated generator state,
or a propagated Python exception. -/
abbrev Res := Except String (String × St)

/-- Python `int(...)` on the decimal strings produced for literal loop
bounds.  (On non-decimal input Python would raise ValueError; that path
is outside the modelled universe and defaults to 0 here.) -/
def pyInt (s : String) : Int :=
  match (strTrim s).data with
  | '-' :: rest => -(Int.ofNat ((digitsVal rest).getD 0))
  | '+' :: rest => Int.ofNat ((digitsVal rest).getD 0)
  | t => Int.ofNat ((digitsVal t).getD 0)

/-- The `name` attribute lookup performed by `_for_to_range`.
`.ok none` marks node kinds whose `name` attribute holds an AST node or
`None` (a chained equality with an identifier string is then false);
`.error` marks kinds without a `name` attribute (Python AttributeError). -/
def nameAttr : CNode → Except String (Option String)
  | .ID n => .ok (some n)
  | .Decl nm _ _ _ => .ok nm
  | .Typename nm _ => .ok nm
  | .ArrayRef .. => .ok none
  | .StructRef .. => .ok none
  | .FuncCall .. => .ok none
  | _ => .error "AttributeError"

/-- `Node.__iter__` (= `children()`) for the node kinds that can appear
as a switch body; used by the `for stmt in n.stmt` loops. -/
def pyChildren : CNode → List CNode
  | .Compound items => items
  | .Case e stmts => e :: stmts
  | .Default stmts => stmts
  | .ArrayRef a b => [a, b]
  | .StructRef a _ b => [a, b]
  | .FuncCall f a => f :: a.toList
  | .UnaryOp _ e => [e]
  | .BinaryOp _ l r => [l, r]
  | .Assignment _ l r => [l, r]
  | .Cast e => [e]
  | .ExprList es => es
  | .InitList es => es
  | .TernaryOp c t f => [c, t, f]
  | .If c t f => c.toList ++ [t] ++ f.toList
  | .For i c n st => i.toList ++ c.toList ++ n.toList ++ [st]
  | .While c st => [c, st]
  | .DoWhile c st => c.toList ++ [st]
  | .Switch c st => [c, st]
  | .Return e => e.toList
  | .Decl _ bs ini ty => [ty] ++ ini.toList ++ bs.toList
  | .DeclList ds => ds
  | .FuncDef d ps b => [d] ++ ps ++ [b]
  | .FileAST es => es
  | .Typedef t => [t]
  | .TypeDecl _ t => [t]
  | .PtrDecl t => [t]
  | .ArrayDecl t => [t]
  | .FuncDecl a t => a.toList ++ [t]
  | .ParamList ps => ps
  | .Typename _ t => [t]
  | _ => []

/-- Inner loop of `PyGenerator._has_fallthrough` over one case's
statements: detect an unconditional break, raising on statements that
follow one. -/
def caseHasBreak : List CNode → Bool → Except String Bool
  | [], hasBreak => .ok hasBreak
  | sub :: rest, hasBreak =>
    match sub with
    | .Break => caseHasBreak rest true
    | _ =>
      if hasBreak then .error "NotImplementedError: Code after non-conditional break"
      else caseHasBreak rest false

/-- Outer loop of `PyGenerator._has_fallthrough`. -/
def hasFallthroughGo : List CNode → Except String Bool
  | [] => .ok false
  | stmt :: rest =>
    match stmt with
    | .Case _ subs => do
      let hb ← caseHasBreak subs false
      if !hb then .ok true else hasFallthroughGo rest
    | .Default _ => hasFallthroughGo rest
    | _ => .error "NotImplementedError"

/-- `PyGenerator._has_fallthrough`. -/
def hasFallthrough (body : CNode) : Except String Bool :=
  hasFallthroughGo (pyChildren body)

/-- `PyGenerator._extract_effects`: split pre/post increment effects out
of a while condition. -/
def extractEffects : CNode → Except String (Option CNode × Option CNode × CNode)
  | n@(.UnaryOp op e) =>
    if op == "p++" || op == "p--" then .ok (none, some n, e)
    else if op == "--" || op == "++" then .ok (some n, some n, e)
    else .error "NotImplementedError"
  | .BinaryOp op l r => do
    let (lpre, lpost, lexpr) ← extractEffects l
    let (rpre, rpost, rexpr) ← extractEffects r
    let pre := [lpre, rpre].filterMap id
    let post := [lpost, rpost].filterMap id
    .ok ((match pre with
          | [] => none
          | [x] => some x
          | xs => some (.Compound xs)),
         (match post with
          | [] => none
          | [x] => some x
          | xs => some (.Compound xs)),
         .BinaryOp op lexpr rexpr)
  | n =>
    if isSimpleNode n then .ok (none, none, n)
    else .error "NotImplementedError"

/-- Generator construction flags (`PyGenerator.__init__` keyword
arguments). -/
structure Config where
  reduceParentheses : Bool
  useTypeHints : Bool
  keepEmptyDeclarations : Bool
  typeHintDeclarations : Bool
  deriving DecidableEq, Repr

/-- The constructor defaults (`reduce_parentheses=True`, everything else
`False`). -/
def defaultConfig : Config :=
  { reduceParentheses := true, useTypeHints := false,
    keepEmptyDeclarations := false, typeHintDeclarations := false }

/-- Parenthesization condition used for the left operand in
`visit_BinaryOp` (negated: `true` means wrap in parentheses). -/
def leftParenCond (cfg : Config) (op : BinOp) (d : CNode) : Bool :=
  !(isSimpleNode d ||
    (cfg.reduceParentheses &&
      (match d with
       | .BinaryOp dop _ _ => binPrec dop ≥ binPrec op
       | _ => false)))

/-- Parenthesization condition used for the right operand in
`visit_BinaryOp` (strict precedence comparison). -/
def rightParenCond (cfg : Config) (op : BinOp) (d : CNode) : Bool :=
  !(isSimpleNode d ||
    (cfg.reduceParentheses &&
      (match d with
       | .BinaryOp dop _ _ => binPrec dop > binPrec op
       | _ => false)))

/-- The type of the one-level-deeper `self.visit` callback threaded
through the helper methods: only `visit` itself consumes fuel, every
other method of the generator receives the current visitor `v`. -/
abbrev VisitFn := CNode → Option CNode → Option CtxFlag → Bool → St → Res

/-- `self.visit` applied to an attribute that may be `None`
(`generic_visit(None)` returns the empty string). -/
def visitOpt (v : VisitFn) (o : Option CNode) (parent : Option CNode)
    (flag : Option CtxFlag) (s : St) : Res :=
  match o with
  | none => .ok ("", s)
  | some n => v n parent flag false s

/-- `PyGenerator._visit_expr`. -/
def visitExprM (v : VisitFn) (n : CNode) (parent : Option CNode) (s : St) : Res :=
  match n with
  | .InitList _ => do
      let (r, s) ← v n parent none false s
      .ok ("[" ++ r ++ "]", s)
  | _ => v n parent none false s

/-- `PyGenerator._parenthesize_if` with the condition evaluated at the
call site (the Python conditions are pure functions of the node). -/
def parenthIf (v : VisitFn) (n : CNode) (parent : Option CNode)
    (cond : Bool) (s : St) : Res := do
  let (str, s) ← visitExprM v n parent s
  .ok (if cond then "(" ++ str ++ ")" else str, s)

/-- `PyGenerator._generate_stmt`. -/
def generateStmt (v : VisitFn) (n : CNode) (parent : Option CNode)
    (addIndent : Bool) (s : St) : Res :=
  let indent := makeIndentAt (s.indentLevel + (if addIndent then 1 else 0))
  match n with
  | .Decl .. | .Assignment .. | .Cast .. | .UnaryOp .. | .BinaryOp ..
  | .TernaryOp .. | .FuncCall .. | .ArrayRef .. | .StructRef ..
  | .Constant .. | .ID .. | .Typedef .. | .ExprList .. => do
      let (ret, s) ← v n parent none false s
      .ok (if ret != "" then indent ++ ret ++ "\n" else "", s)
  | .Compound .. => v n parent none false s
  | .If .. => do
      let (r, s) ← v n parent none false s
      .ok (indent ++ r, s)
  | _ => do
      let (r, s) ← v n parent none false s
      .ok (indent ++ r ++ "\n", s)

/-- The modifier-resolution loop inside the TypeDecl branch of
`_generate_type`. -/
def genTypeMods (v : VisitFn) (mods : List CNode) (parentParam : Option CNode)
    (str nstr : String) (s : St) : Except String ((String × String) × St) :=
  match mods with
  | [] => .ok ((str, nstr), s)
  | m :: rest =>
    match m with
    | .ArrayDecl _ =>
        genTypeMods v rest parentParam ("List[" ++ mapType str ++ "]") nstr s
    | .FuncDecl args _ => do
        let (argsStr, s) ← visitOpt v args parentParam (some .FuncArgs) s
        genTypeMods v rest parentParam str (nstr ++ "(" ++ argsStr ++ ")") s
    | .PtrDecl _ =>
        genTypeMods v rest parentParam ("List[" ++ mapType str ++ "]") nstr s
    | _ => genTypeMods v rest parentParam str nstr s

/-- `PyGenerator._generate_type`.  The `parentParam` argument is the
`parent` keyword of the Python method; the `self._parent` instance
attribute consulted for the ParamList/FuncDef checks lives in `s`. -/
def generateType (cfg : Config) (v : VisitFn) (tn : CNode) (parentParam : Option CNode)
    (modifiers : List CNode) (emitDeclname : Bool) (s : St) : Res :=
  match tn with
  | nd@(.TypeDecl declname ty) => do
      let (tyStr, s) ← v ty (some nd) none false s
      let nstr := if emitDeclname then declname.getD "" else ""
      let ((str, nstr), s) ← genTypeMods v modifiers parentParam tyStr nstr s
      if nstr != "" then
        let str := mapType str
        match s.parent with
        | some (.ParamList _) =>
            .ok ((if cfg.useTypeHints then nstr ++ ": " ++ str else nstr), s)
        | some (.FuncDef ..) =>
            .ok ((if cfg.useTypeHints then nstr ++ " -> " ++ str else nstr), s)
        | _ =>
            .ok ((if cfg.typeHintDeclarations then nstr ++ ": " ++ str else nstr), s)
      else .ok (mapType str, s)
  | .Decl .. =>
      -- the source calls `_generate_decl(n.type)`, which reads `funcspec`
      -- of a type node and so raises AttributeError; the branch is
      -- unreachable from pycparser ASTs
      .error "AttributeError"
  | nd@(.Typename _ ty) => generateType cfg v ty (some nd) [] emitDeclname s
  | .IdentifierType names => .ok (String.intercalate " " names ++ " ", s)
  | nd@(.ArrayDecl ty) =>
      generateType cfg v ty (some nd) (modifiers ++ [nd]) emitDeclname s
  | nd@(.PtrDecl ty) =>
      generateType cfg v ty (some nd) (modifiers ++ [nd]) emitDeclname s
  | nd@(.FuncDecl _ ty) =>
      generateType cfg v ty (some nd) (modifiers ++ [nd]) emitDeclname s
  | _ => v tn parentParam none false s

/-- `PyGenerator._generate_decl` (funcspec/storage are ignored by the
source; the pycparser `align` attribute is not modelled). -/
def generateDecl (cfg : Config) (v : VisitFn) (n : CNode) (s : St) : Res :=
  match n with
  | .Decl _ _ _ dty => generateType cfg v dty (some n) [] true s
  | _ => .error "AttributeError"

/-- `PyGenerator._for_to_range`. -/
def forToRange (v : VisitFn) (iniO condO nxtO : Option CNode) (s : St) :
    Except String (Option String × St) :=
  match iniO, nxtO, condO with
  | some ini, some (.UnaryOp nop nexpr), some (cnd@(.BinaryOp cop cleft cright)) =>
    let initDecl : Bool := match ini with | .DeclList ds => ds.length == 1 | _ => false
    let initOk : Bool :=
      (match ini with | .Assignment .. => true | _ => false) || initDecl
    if initOk && ["p++", "++p", "p--", "--p", "++", "--"].contains nop then do
      let varName ← nameAttr nexpr
      let initName ←
        (if initDecl then
           match ini with
           | .DeclList (d :: _) => nameAttr d
           | _ => .error "IndexError"
         else
           match ini with
           | .Assignment _ lv _ => nameAttr lv
           | _ => .error "AttributeError")
      match varName, initName with
      | some vn, some inm =>
        if vn == inm then do
          let condName ← nameAttr cleft
          if condName == some inm then do
            let (initStr, s) ←
              (if initDecl then
                 match ini with
                 | .DeclList (d :: _) =>
                   (match d with
                    | .Decl _ _ dIni _ => visitOpt v dIni (some ini) none s
                    | _ => .error "AttributeError")
                 | _ => .error "IndexError"
               else
                 match ini with
                 | .Assignment _ _ rv => v rv (some ini) none false s
                 | _ => .error "AttributeError")
            let (condStr, s) ← v cright (some cnd) none false s
            let step : Int := if ["p--", "--p", "--"].contains nop then -1 else 1
            let condStr :=
              if cop == .bge || cop == .ble then
                match cright with
                | .Constant .. => toString (pyInt condStr + step)
                | _ => condStr ++ " " ++ (if step < 0 then "-" else "+") ++ " 1"
              else condStr
            .ok (some ("for " ++ vn ++ " in range(" ++ initStr ++ ", " ++ condStr ++ "):"), s)
          else .ok (none, s)
        else .ok (none, s)
      | _, _ => .ok (none, s)
    else .ok (none, s)
  | _, _, _ => .ok (none, s)

/-- The `''.join(self._generate_stmt(stmt, ...))` loops (Compound
bodies, Case/Default bodies). -/
def stmtsFold (v : VisitFn) (items : List CNode) (parent : Option CNode)
    (addIndent : Bool) (acc : String) (s : St) : Res :=
  match items with
  | [] => .ok (acc, s)
  | x :: rest => do
      let (r, s) ← generateStmt v x parent addIndent s
      stmtsFold v rest parent addIndent (acc ++ r) s

/-- The `_visit_expr` loops of `visit_ExprList` / `visit_InitList`. -/
def exprsFold (v : VisitFn) (items : List CNode) (parent : Option CNode)
    (s : St) : Except String (List String × St) :=
  match items with
  | [] => .ok ([], s)
  | x :: rest => do
      let (r, s) ← visitExprM v x parent s
      let (rs, s) ← exprsFold v rest parent s
      .ok (r :: rs, s)

/-- The plain `self.visit` joins (ParamList, K&R declarations, DeclList
tails). -/
def joinFold (v : VisitFn) (items : List CNode) (parent : Option CNode)
    (noType : Bool) (s : St) : Except String (List String × St) :=
  match items with
  | [] => .ok ([], s)
  | x :: rest => do
      let (r, s) ← v x parent none noType s
      let (rs, s) ← joinFold v rest parent noType s
      .ok (r :: rs, s)

/-- The external-declaration loop of `visit_FileAST`.  `ext.type` exists
only on Decl nodes among the kinds reaching file scope; other kinds
raise AttributeError. -/
def fileFold (v : VisitFn) (exts : List CNode) (nd : CNode)
    (acc : String) (s : St) : Res :=
  match exts with
  | [] => .ok (acc, s)
  | ext :: rest =>
    match ext with
    | .FuncDef .. => do
        let (r, s) ← v ext (some nd) none false s
        fileFold v rest nd (acc ++ r ++ "\n") s
    | .Pragma _ => do
        let (r, s) ← v ext (some nd) none false s
        fileFold v rest nd (acc ++ r ++ "\n") s
    | .Typedef _ => fileFold v rest nd acc s
    | .Decl _ _ _ dty =>
        (match dty with
         | .FuncDecl .. => fileFold v rest nd acc s
         | _ => do
            let (r, s) ← v ext (some nd) none false s
            fileFold v rest nd (acc ++ r ++ "\n\n\n") s)
    | _ => .error "AttributeError"

/-- Regular (non-reduced) rendering path of `visit_If`. -/
def ifRegular (v : VisitFn) (nd : CNode) (condO : Option CNode)
    (iftrue : CNode) (iffalse : Option CNode) (s : St) : Res := do
  let (condStr, s) ←
    match condO with
    | some c => do
        let (cs, s) ← v c (some nd) none false s
        (.ok ((if !isSingleNode c then "(" ++ cs ++ ")" else cs), s) : Res)
    | none => .ok ("()", s)
  let (thenStr, s) ← generateStmt v iftrue (some nd) true s
  let base := "if " ++ condStr ++ ":\n" ++ thenStr
  match iffalse with
  | some (e@(.If ..)) => do
      let pre := makeIndent s 0
      let (r, s) ← generateStmt v e (some nd) true s
      .ok (base ++ pre ++ "el" ++ pyLstrip r, s)
  | some e => do
      let pre := makeIndent s 0
      let (r, s) ← generateStmt v e (some nd) true s
      .ok (base ++ pre ++ "else:\n" ++ r, s)
  | none => .ok (base, s)

/-- The `enumerate(blocks)` emission loop of `_switch_to_ifs`: an `if`
guard for the first block, `elif` for the rest, each followed by the
`Compound(shared[offset:])` visit. -/
def stiEmit (v : VisitFn) (nd caseNode : CNode) (blocks : List (CNode × Nat))
    (i : Nat) (acc : String) (shared : List CNode) (s : St) : Res :=
  match blocks with
  | [] => .ok (acc, s)
  | (bc, offset) :: rest =>
    if i == 0 then do
      let (cstr, s) ← v bc (some caseNode) none false s
      let (r, s) ← v (.Compound (shared.drop offset)) (some nd) none false s
      stiEmit v nd caseNode rest (i + 1) (acc ++ "if " ++ cstr ++ ":\n" ++ r) shared s
    else do
      let pre := makeIndent s 0
      let (cstr, s) ← v bc (some caseNode) none false s
      let (r, s) ← v (.Compound (shared.drop offset)) (some nd) none false s
      stiEmit v nd caseNode rest (i + 1)
        (acc ++ pre ++ "elif " ++ cstr ++ ":\n" ++ r) shared s

/-- Inner loop of `_switch_to_ifs` over one case's statements.  On a
break it emits the pending blocks and then — replicating the reuse of
the Python loop variable `idx` by the `enumerate` — resets the shared
offset counter to `len(blocks) - 1` (unchanged when `blocks` is
empty). -/
def stiSubs (v : VisitFn) (nd cond caseNode : CNode) (subs : List CNode)
    (hasBreak : Bool) (acc : String) (idx : Nat) (shared : List CNode)
    (blocks : List (CNode × Nat)) (s : St) :
    Except String ((String × Nat × List CNode × List (CNode × Nat)) × St) :=
  match subs with
  | [] => .ok ((acc, idx, shared, blocks), s)
  | sub :: rest =>
    match sub with
    | .Break => do
        let (acc, s) ← stiEmit v nd caseNode blocks 0 acc shared s
        let idx := if blocks.isEmpty then idx else blocks.length - 1
        stiSubs v nd cond caseNode rest true acc idx shared [] s
    | _ =>
        if hasBreak then .error "NotImplementedError"
        else stiSubs v nd cond caseNode rest false acc (idx + 1)
               (shared ++ [sub]) blocks s

/-- Outer loop of `_switch_to_ifs` over the switch body's children,
threading the `(s, idx, shared, blocks)` loop state. -/
def stiStmts (v : VisitFn) (nd cond : CNode) (stmts : List CNode)
    (acc : String) (idx : Nat) (shared : List CNode) (blocks : List (CNode × Nat))
    (s : St) : Res :=
  match stmts with
  | [] => .ok (acc, s)
  | stmt :: rest =>
    match stmt with
    | cs@(.Case cexpr subs) => do
        let blocks := blocks ++ [(CNode.BinaryOp .beq cond cexpr, idx)]
        let ((acc, idx, shared, blocks), s) ←
          stiSubs v nd cond cs subs false acc idx shared blocks s
        stiStmts v nd cond rest acc idx shared blocks s
    | .Default dstmts => do
        let s := { s with skip := skipAdd s.skip "Break" }
        let pre := makeIndent s 0
        let (r, s) ← v (.Compound dstmts) (some nd) none false s
        let acc := acc ++ pre ++ "else:\n" ++ r
        if s.skip.contains "Break" then
          stiStmts v nd cond rest acc idx shared blocks
            { s with skip := s.skip.erase "Break" }
        else .error "KeyError"
    | _ => .error "NotImplementedError"

/-- `PyGenerator._switch_to_ifs`: discriminant check, then the
statement loop. -/
def switchToIfs (v : VisitFn) (nd cond body : CNode) (s : St) : Res :=
  match cond with
  | .ID _ => stiStmts v nd cond (pyChildren body) "" 0 [] [] s
  | .Constant .. => stiStmts v nd cond (pyChildren body) "" 0 [] [] s
  | _ => .error "NotImplementedError"

/-- The dispatched `visit_<ClassName>` methods, one match arm per node
kind. -/
def visitCore (cfg : Config) (v : VisitFn) (n : CNode) (noType : Bool) (s : St) : Res :=
  match n with
  | .Constant _ value => .ok (convertLiteral value, s)
  | .ID name => .ok (name, s)
  | .Pragma str => .ok (if str != "" then "#pragma " ++ str else "#pragma", s)
  | nd@(.ArrayRef name sub) => do
      let (arrref, s) ← parenthIf v name (some nd) (!isSimpleNode name) s
      let (subStr, s) ← v sub (some nd) none false s
      .ok (arrref ++ "[" ++ subStr ++ "]", s)
  | nd@(.StructRef name reftype field) => do
      let (sref, s) ← parenthIf v name (some nd) (!isSimpleNode name) s
      let refType := if reftype == "->" then "." else reftype
      let (fieldStr, s) ← v field (some nd) none false s
      .ok (sref ++ refType ++ fieldStr, s)
  | nd@(.FuncCall name args) => do
      let (fref, s) ← parenthIf v name (some nd) (!isSimpleNode name) s
      let (argsStr, s) ← visitOpt v args (some nd) none s
      .ok (fref ++ "(" ++ argsStr ++ ")", s)
  | nd@(.UnaryOp op e) =>
      if op == "sizeof" then do
        let (r, s) ← v e (some nd) none false s
        .ok ("sizeof(" ++ r ++ ")", s)
      else do
        let (operand, s) ← parenthIf v e (some nd) (!isSimpleNode e) s
        if op == "p++" || op == "++" then .ok (operand ++ " += 1", s)
        else if op == "p--" || op == "--" then .ok (operand ++ " -= 1", s)
        else .ok (unaryOpPy op ++ operand, s)
  | nd@(.BinaryOp op l r) => do
      let (lval, s) ← parenthIf v l (some nd) (leftParenCond cfg op l) s
      let (rval, s) ← parenthIf v r (some nd) (rightParenCond cfg op r) s
      .ok (lval ++ " " ++ binOpPy op ++ " " ++ rval, s)
  | nd@(.Assignment op lv rv) => do
      let (lstr, s) ← v lv (some nd) none false s
      let (rstr, s) ← v rv (some nd) none false s
      .ok (lstr ++ " " ++ op ++ " " ++ rstr, s)
  | .IdentifierType names => .ok (String.intercalate " " names, s)
  | nd@(.Decl nm bitsize ini _) => do
      let (base, s) ←
        if noType then
          match nm with
          | some nmv => (.ok (nmv, s) : Res)
          | none => .error "TypeError"
        else generateDecl cfg v nd s
      let (withBits, s) ←
        match bitsize with
        | some b => do
            let (r, s) ← v b (some nd) none false s
            (.ok (base ++ " : " ++ r, s) : Res)
        | none => .ok (base, s)
      let (withInit, s) ←
        match ini with
        | some i => do
            let (r, s) ← visitExprM v i (some nd) s
            (.ok (withBits ++ " = " ++ r, s) : Res)
        | none => .ok (withBits, s)
      if ini.isNone && s.funcBody then
        if cfg.keepEmptyDeclarations then
          if cfg.typeHintDeclarations then .ok (withInit ++ " | None = None", s)
          else .ok (withInit ++ " = None", s)
        else .ok ("", s)
      else .ok (withInit, s)
  | nd@(.DeclList decls) =>
      (match decls with
       | [] => .error "IndexError"
       | d0 :: rest => do
          let (first, s) ← v d0 (some nd) none false s
          if rest.isEmpty then .ok (first, s)
          else do
            let (rs, s) ← joinFold v rest (some nd) true s
            .ok (first ++ ", " ++ String.intercalate ", " rs, s))
  | nd@(.Typedef ty) => generateType cfg v ty (some nd) [] true s
  | nd@(.Cast e) => parenthIf v e (some nd) (!isSimpleNode e) s
  | nd@(.ExprList exprs) => do
      let (strs, s) ← exprsFold v exprs (some nd) s
      match s.parent with
      | some (.FuncCall ..) => .ok (String.intercalate ", " strs, s)
      | _ =>
        match strs.getLast? with
        | some last => .ok (last, s)
        | none => .error "IndexError"
  | nd@(.InitList exprs) => do
      let (strs, s) ← exprsFold v exprs (some nd) s
      .ok (String.intercalate ", " strs, s)
  | nd@(.TernaryOp c t f) => do
      let (ts, s) ← visitExprM v t (some nd) s
      let tstr := if !isSingleNode t then "(" ++ ts ++ ")" else ts
      let (cs, s) ← visitExprM v c (some nd) s
      let cstr := if !isSingleNode c then "(" ++ cs ++ ")" else cs
      let (fs, s) ← visitExprM v f (some nd) s
      let fstr := if !isSingleNode f then "(" ++ fs ++ ")" else fs
      .ok (tstr ++ " if " ++ cstr ++ " else " ++ fstr, s)
  | nd@(.If condO iftrue iffalse) =>
      (match condO with
       | some (.Constant ctype cval) =>
          if ctype == "int" && cval == "1" then do
            let (r, s) ← v iftrue (some nd) none false s
            .ok (r ++ "\n", s)
          else if ctype == "int" && cval == "0" then
            match iffalse with
            | some e => do
                let (r, s) ← v e (some nd) none false s
                .ok (r ++ "\n", s)
            | none => .ok ("", s)
          else ifRegular v nd condO iftrue iffalse s
       | _ => ifRegular v nd condO iftrue iffalse s)
  | nd@(.For ini condO nxt stmt) => do
      let (rangeOpt, s) ← forToRange v ini condO nxt s
      match rangeOpt with
      | some rangeStr => do
          let (body, s) ← generateStmt v stmt (some nd) true s
          .ok (rangeStr ++ "\n" ++ body.dropRight 1, s)
      | none => do
          let (initPart, s) ←
            match ini with
            | some i => do
                let (r, s) ← v i (some nd) none false s
                (.ok (r ++ "\n", s) : Res)
            | none => .ok ("", s)
          let savedIndent := s.indentLevel
          let header := makeIndent s 0 ++ "while True:\n"
          let (body, s) ← generateStmt v stmt (some nd) true s
          let s := setIndent s (s.indentLevel + 1)
          let (nextPart, s) ←
            match nxt with
            | some nx => do
                let pre := makeIndent s 0
                let (r, s) ← v nx (some nd) none false s
                (.ok (pre ++ r ++ "\n", s) : Res)
            | none => .ok ("", s)
          let (condPart, s) ←
            match condO with
            | some c => do
                let pre := makeIndent s 0
                let (r, s) ← v c (some nd) none false s
                (.ok (pre ++ "if not (" ++ r ++ "):\n" ++ makeIndent s 1 ++ "break", s) : Res)
            | none => .ok ("", s)
          let s := setIndent s savedIndent
          .ok (initPart ++ header ++ body ++ nextPart ++ condPart, s)
  | nd@(.While cond stmt) => do
      let (pre, post, condN) ← extractEffects cond
      let (prePart, s) ←
        match pre with
        | some p => do
            let (r, s) ← v p (some nd) none false s
            (.ok (r ++ "\n" ++ makeIndent s 0, s) : Res)
        | none => .ok ("", s)
      let (cs, s) ← v condN (some nd) none false s
      let condStr := if !isSingleNode condN then "(" ++ cs ++ ")" else cs
      let (body, s) ← generateStmt v stmt (some nd) true s
      let (postPart, s) ←
        match post with
        | some p => do
            let pre2 := makeIndent s 1
            let (r, s) ← v p (some nd) none false s
            (.ok (pre2 ++ r, s) : Res)
        | none => .ok ("", s)
      .ok (prePart ++ "while " ++ condStr ++ ":\n" ++ body ++ postPart, s)
  | nd@(.DoWhile condO stmt) => do
      let savedIndent := s.indentLevel
      let (body, s) ← generateStmt v stmt (some nd) true s
      match condO with
      | some c => do
          let s := setIndent s (savedIndent + 1)
          let pre := makeIndent s 0
          let (r, s) ← v c (some nd) none false s
          let s := setIndent s (s.indentLevel + 1)
          let brk := makeIndent s 0 ++ "break\n"
          let s := setIndent s savedIndent
          .ok ("while True:\n" ++ body ++ pre ++ "if not (" ++ r ++ "):\n" ++ brk, s)
      | none =>
          let s := setIndent s savedIndent
          .ok ("while True:\n" ++ body, s)
  | nd@(.Switch cond body) => do
      let ft ← hasFallthrough body
      if !ft then do
        let (cs, s) ← v cond (some nd) none false s
        let condStr := if !isSingleNode cond then "(" ++ cs ++ ")" else cs
        let s := { s with skip := skipAdd s.skip "Break" }
        let (bodyStr, s) ← generateStmt v body (some nd) true s
        if s.skip.contains "Break" then
          .ok ("match " ++ condStr ++ ":\n" ++ nstrip bodyStr,
               { s with skip := s.skip.erase "Break" })
        else .error "KeyError"
      else do
        let (str, s) ← switchToIfs v nd cond body s
        .ok (nstrip str, s)
  | nd@(.Case e stmts) => do
      let (es, s) ← v e (some nd) none false s
      let (body, s) ← stmtsFold v stmts (some nd) true "" s
      .ok ("case " ++ es ++ ":\n" ++ body, s)
  | nd@(.Default stmts) => do
      let (body, s) ← stmtsFold v stmts (some nd) true "" s
      .ok ("case _:\n" ++ body, s)
  | .Break => .ok ("break", s)
  | .Continue => .ok ("continue", s)
  | nd@(.Return e) =>
      (match e with
       | some ex => do
          let (r, s) ← v ex (some nd) none false s
          .ok ("return " ++ r, s)
       | none => .ok ("return", s))
  | nd@(.Compound items) => do
      let doIndent : Bool := match s.parent with | some (.Compound _) => false | _ => true
      let s := if doIndent then setIndent s (s.indentLevel + 1) else s
      let (body, s) ←
        (if items.isEmpty then (.ok ("", s) : Res)
         else stmtsFold v items (some nd) false "" s)
      let s := if doIndent then setIndent s (s.indentLevel - 1) else s
      .ok (body, s)
  | .EmptyStatement => .ok ("pass", s)
  | nd@(.FuncDef decl params body) => do
      let (declStr, s) ← v decl (some nd) (some .FuncProto) false s
      let s := setIndent s 0
      let (bodyStr, s) ← v body (some nd) (some .FuncBody) false s
      let bodyStr := if bodyStr == "" then makeIndent s 1 ++ "pass" else bodyStr
      if params.isEmpty then
        .ok ("def " ++ declStr ++ ":\n" ++ bodyStr ++ "\n", s)
      else do
        let (ps, s) ← joinFold v params (some nd) false s
        .ok ("def " ++ declStr ++ ":\n" ++ String.intercalate ";\n" ps
              ++ ";\n" ++ bodyStr ++ "\n", s)
  | nd@(.FileAST exts) => fileFold v exts nd "" s
  | nd@(.ParamList params) =>
      (match params with
       | [p] =>
          (match p with
           | .Decl none _ _ _ => .ok ("", s)
           | .Typename none _ => .ok ("", s)
           | .Decl (some _) _ _ _ => do
              let (rs, s) ← joinFold v params (some nd) false s
              .ok (String.intercalate ", " rs, s)
           | .Typename (some _) _ => do
              let (rs, s) ← joinFold v params (some nd) false s
              .ok (String.intercalate ", " rs, s)
           | _ => .error "AttributeError")
       | _ => do
          let (rs, s) ← joinFold v params (some nd) false s
          .ok (String.intercalate ", " rs, s))
  | .EllipsisParam => .ok ("...", s)
  | nd@(.Typename _ ty) => generateType cfg v ty (some nd) [] true s
  | nd@(.FuncDecl ..) => generateType cfg v nd s.parent [] true s
  | nd@(.ArrayDecl ..) => generateType cfg v nd s.parent [] false s
  | nd@(.TypeDecl ..) => generateType cfg v nd s.parent [] false s
  | nd@(.PtrDecl ..) => generateType cfg v nd s.parent [] false s

/-- `PyGenerator.visit`: skip-set check, flag set/clear and parent
swap around the dispatched `visit_*` method (`visitCore`).  On a raised
exception the cleanup does not run, as in the Python context managers.
Only this function consumes fuel: one unit per nesting level of
`self.visit` calls. -/
def visit (cfg : Config) : Nat → CNode → Option CNode → Option CtxFlag → Bool → St → Res
  | 0, _, _, _, _, _ => .error "fuel"
  | fuel + 1, n, parent, flag, noType, s =>
    if s.skip.contains (clsName n) then .ok ("", s)
    else
      let s0 := applyFlag flag s
      let prevParent := s0.parent
      let sIn := { s0 with parent := parent }
      match visitCore cfg (fun n p f nt s => visit cfg fuel n p f nt s) n noType sIn with
      | .error e => .error e
      | .ok (ret, sOut) => .ok (ret, clearFlag flag { sOut with parent := prevParent })

/-- `PyGenerator._parenthesize_unless_simple`. -/
def parenthesizeUnlessSimple (v : VisitFn) (n : CNode)
    (parent : Option CNode) (s : St) : Res :=
  parenthIf v n parent (!isSimpleNode n) s

/-- Rendering entry point: `PyGenerator(...).visit(node, parent=None)`
on a fresh generator, projected to the rendered text. -/
def renderNode (cfg : Config) (fuel : Nat) (n : CNode) : Except String String :=
  (visit cfg fuel n none none false initSt).map Prod.fst

/-- Python `range(a, b)` (two-argument form, default step `+1`), as the
value sequence it iterates over. -/
def pyRange (a b : Int) : List Int :=
  (List.range (b - a).toNat).map (fun k => a + (k : Int))

/-- Value sequence of a C counting loop
`for (i = init; test(i); i += step)`: the values the induction variable
takes at each body entry. -/
def cForSeq (fuel : Nat) (i : Int) (test : Int → Bool) (step : Int) : List Int :=
  match fuel with
  | 0 => []
  | fuel + 1 => if test i then i :: cForSeq fuel (i + step) test step else []

/-- AST of `for (i = 0; i < 5; i++) { a = i; }`. -/
def forAscExample : CNode := .For
  (some (.Assignment "=" (.ID "i") (.Constant "int" "0")))
  (some (.BinaryOp .blt (.ID "i") (.Constant "int" "5")))
  (some (.UnaryOp "p++" (.ID "i")))
  (.Compound [.Assignment "=" (.ID "a") (.ID "i")])

/-- AST of `for (i = 5; i >= 1; i--) { a = i; }`. -/
def forDescExample : CNode := .For
  (some (.Assignment "=" (.ID "i") (.Constant "int" "5")))
  (some (.BinaryOp .bge (.ID "i") (.Constant "int" "1")))
  (some (.UnaryOp "p--" (.ID "i")))
  (.Compound [.Assignment "=" (.ID "a") (.ID "i")])

/-- AST of
`switch (x) { case 1: a = 1; break; case 2: b = 2; break; default: c = 3; }`
(every case ends in an unconditional break). -/
def switchAllBreakExample : CNode := .Switch (.ID "x") (.Compound
  [.Case (.Constant "int" "1") [.Assignment "=" (.ID "a") (.Constant "int" "1"), .Break],
   .Case (.Constant "int" "2") [.Assignment "=" (.ID "b") (.Constant "int" "2"), .Break],
   .Default [.Assignment "=" (.ID "c") (.Constant "int" "3")]])

/-- AST of
`switch (x) { case 1: a = 1; case 2: b = 2; break; case 3: c = 3; break; }`
(case 1 falls through into case 2; case 3 is a separate region). -/
def switchFallExample : CNode := .Switch (.ID "x") (.Compound
  [.Case (.Constant "int" "1") [.Assignment "=" (.ID "a") (.Constant "int" "1")],
   .Case (.Constant "int" "2") [.Assignment "=" (.ID "b") (.Constant "int" "2"), .Break],
   .Case (.Constant "int" "3") [.Assignment "=" (.ID "c") (.Constant "int" "3"), .Break]])

/-- AST of
`switch (x) { case 1: if (y) break; a = 1; case 2: b = 2; break; }`
(a conditional break inside a fallthrough case). -/
def switchCondBreakExample : CNode := .Switch (.ID "x") (.Compound
  [.Case (.Constant "int" "1")
      [.If (some (.ID "y")) .Break none,
       .Assignment "=" (.ID "a") (.Constant "int" "1")],
   .Case (.Constant "int" "2") [.Assignment "=" (.ID "b") (.Constant "int" "2"), .Break]])

mutual

/-- No `FuncDef` or `FileAST` node occurs in the tree: the only two
node kinds whose visits reset the indentation level to zero and write
the FuncBody/FuncProto context flags.  In a pycparser AST of valid C
these two kinds occur only at the top level, so every nested visit the
engine performs is on a tree satisfying this predicate. -/
def noDefs : CNode → Bool
  | .Constant .. => true
  | .ID _ => true
  | .Pragma _ => true
  | .ArrayRef a b => noDefs a && noDefs b
  | .StructRef a _ b => noDefs a && noDefs b
  | .FuncCall f a => noDefs f && noDefsO a
  | .UnaryOp _ e => noDefs e
  | .BinaryOp _ l r => noDefs l && noDefs r
  | .Assignment _ l r => noDefs l && noDefs r
  | .Cast e => noDefs e
  | .ExprList es => noDefsL es
  | .InitList es => noDefsL es
  | .TernaryOp a b c => noDefs a && noDefs b && noDefs c
  | .If c t f => noDefsO c && noDefs t && noDefsO f
  | .For i c nx st => noDefsO i && noDefsO c && noDefsO nx && noDefs st
  | .While c st => noDefs c && noDefs st
  | .DoWhile c st => noDefsO c && noDefs st
  | .Switch c st => noDefs c && noDefs st
  | .Case e ss => noDefs e && noDefsL ss
  | .Default ss => noDefsL ss
  | .Break => true
  | .Continue => true
  | .Return e => noDefsO e
  | .Compound items => noDefsL items
  | .EmptyStatement => true
  | .Decl _ bs ini ty => noDefsO bs && noDefsO ini && noDefs ty
  | .DeclList ds => noDefsL ds
  | .FuncDef .. => false
  | .FileAST .. => false
  | .Typedef t => noDefs t
  | .TypeDecl _ t => noDefs t
  | .IdentifierType _ => true
  | .PtrDecl t => noDefs t
  | .ArrayDecl t => noDefs t
  | .FuncDecl a t => noDefsO a && noDefs t
  | .ParamList ps => noDefsL ps
  | .Typename _ t => noDefs t
  | .EllipsisParam => true

/-- `noDefs` on an optional child. -/
def noDefsO : Option CNode → Bool
  | none => true
  | some n => noDefs n

/-- `noDefs` on a list of children. -/
def noDefsL : List CNode → Bool
  | [] => true
  | x :: xs => noDefs x && noDefsL xs

end

/-- State observations preserved by every visit of a `noDefs` subtree:
the indentation level, the FuncBody context bit, and — whenever the
recorded minimum is at most the current level, as it always is in
engine-reachable states — the minimum indentation ever assigned. -/
def StPres (s s' : St) : Prop :=
  s'.indentLevel = s.indentLevel ∧ s'.funcBody = s.funcBody ∧
    (s.minIndent ≤ s.indentLevel → s'.minIndent = s.minIndent)

/-- A fallible state-returning computation preserves the observations. -/
def PresA {α : Type} (s : St) (r : Except String (α × St)) : Prop :=
  ∀ a s', r = .ok (a, s') → StPres s s'

/-- All the preservation facts about one level of the visitor. -/
def PresV (v : VisitFn) : Prop :=
  ∀ n parent flag noType s a s', noDefs n = true →
    v n parent flag noType s = .ok (a, s') →
      (s'.indentLevel = s.indentLevel ∧
        (s.minIndent ≤ s.indentLevel → s'.minIndent = s.minIndent)) ∧
      (flag ≠ some CtxFlag.FuncBody → s'.funcBody = s.funcBody)

/-- All guard conditions accumulated in `_switch_to_ifs`' `blocks` list
are FuncDef-free. -/
def blocksOk (bs : List (CNode × Nat)) : Bool := bs.all (fun bc => noDefs bc.1)

/-- Invariant for a state reached inside an indentation bracket: the
indent level sits `k ≥ 0` above the bracket entry, the function-body
flag is unchanged, and (when the entry state was consistent) the
minimum-indent instrumentation is unchanged. -/
def Climb (s s2 : St) (k : Int) : Prop :=
  s2.funcBody = s.funcBody ∧ s2.indentLevel = s.indentLevel + k ∧ 0 ≤ k ∧
    (s.minIndent ≤ s.indentLevel → s2.minIndent = s.minIndent)

/-- The node kinds acceptable as external declarations of a `FileAST`:
a function definition whose components are definition-free, or any
definition-free node.  (Valid pycparser C files satisfy this.) -/
def extOk : CNode → Bool
  | .FuncDef decl params body => noDefs decl && noDefsL params && noDefs body
  | n => noDefs n

/-- All external declarations of a file are `extOk`. -/
def topOk : List CNode → Bool
  | [] => true
  | x :: xs => extOk x && topOk xs

def funcdefExample : CNode := .FuncDef
  (.Decl (some "f") none none (.FuncDecl none (.TypeDecl (some "f") (.IdentifierType ["int"]))))
  [] (.Compound [.Return (some (.Constant "int" "0"))])

/-- The "simple node" list exactly as written in claim C1: constant,
identifier, array reference, struct/member reference, or function
call. -/
def claimSimpleNode : CNode → Bool
  | .Constant .. => true
  | .ID _ => true
  | .ArrayRef .. => true
  | .StructRef .. => true
  | .FuncCall .. => true
  | _ => false

/-- The claim's simple-node list amended with the node kinds the
generator reduces and therefore also treats as simple: cast
expressions and the address-of / dereference unary operators. -/
def amendedSimpleNode : CNode → Bool
  | .Constant .. => true
  | .ID _ => true
  | .ArrayRef .. => true
  | .StructRef .. => true
  | .FuncCall .. => true
  | .Cast _ => true
  | .UnaryOp op _ => op == "&" || op == "*"
  | _ => false

/-- `true` exactly on binary-operation nodes. -/
def isBinaryOpNode : CNode → Bool
  | .BinaryOp .. => true
  | _ => false

/-! ### The TypeScript-grammar engine (`nxbindgen/typescript/sandbox.py`)

The `.d.ts`-schema to Python-stub generator.  Node names are ASCII
identifiers, so the character classes of `re` are modelled over ASCII;
Python `set`s of import names are modelled as insertion-ordered
duplicate-free lists (the claims only speak about the order of import
statements, which follows the dict's first-use key order). -/

def chUpper (c : Char) : Bool := 65 ≤ c.toNat && c.toNat ≤ 90

def chLower (c : Char) : Bool := 97 ≤ c.toNat && c.toNat ≤ 122

def chDigit (c : Char) : Bool := 48 ≤ c.toNat && c.toNat ≤ 57

def chCaseLower (c : Char) : Char :=
  if chUpper c then Char.ofNat (c.toNat + 32) else c

/-- Python `str.isupper` over ASCII: at least one cased character and
no lowercase one. -/
def pyIsUpperL (l : List Char) : Bool :=
  l.any (fun c => chUpper c || chLower c) && l.all (fun c => !chLower c)

/-- One pass of `re.sub('(.)([A-Z][a-z]+)', r'\1_\2', name)`: any
character followed by an uppercase letter and a maximal nonempty
lowercase run gets an underscore inserted after it; scanning resumes
after the match.  Fuel-driven; `length` fuel suffices since every step
consumes at least one character. -/
def reSub1Go : Nat → List Char → List Char
  | 0, l => l
  | _ + 1, [] => []
  | fuel + 1, c :: rest =>
    match rest with
    | u :: l :: tl =>
      if chUpper u && chLower l then
        c :: '_' :: u :: ((l :: tl).takeWhile chLower
          ++ reSub1Go fuel ((l :: tl).dropWhile chLower))
      else c :: reSub1Go fuel rest
    | _ => c :: reSub1Go fuel rest

/-- `re.sub('__([A-Z])', r'_\1', name)`. -/
def reSub2Go : Nat → List Char → List Char
  | 0, l => l
  | _ + 1, [] => []
  | fuel + 1, c :: tl =>
    match c, tl with
    | '_', '_' :: d :: tl2 =>
      if chUpper d then '_' :: d :: reSub2Go fuel tl2
      else c :: reSub2Go fuel tl
    | _, _ => c :: reSub2Go fuel tl

/-- `re.sub('([a-z0-9])([A-Z])', r'\1_\2', name)`. -/
def reSub3Go : Nat → List Char → List Char
  | 0, l => l
  | _ + 1, [] => []
  | fuel + 1, c :: tl =>
    match tl with
    | d :: tl2 =>
      if (chLower c || chDigit c) && chUpper d then
        c :: '_' :: d :: reSub3Go fuel tl2
      else c :: reSub3Go fuel tl
    | [] => [c]

/-- `nxbindgen.typescript.utils.to_python`: camelCase to snake_case via
the three substitutions and a final lowering, short-circuited on
all-uppercase names. -/
def toPython (name : String) : String :=
  let l := name.data
  if pyIsUpperL l then name
  else
    let l1 := reSub1Go l.length l
    let l2 := reSub2Go l1.length l1
    let l3 := reSub3Go l2.length l2
    String.mk (l3.map chCaseLower)

def strStartsWithL : List Char → List Char → Bool
  | _, [] => true
  | [], _ :: _ => false
  | c :: cs, d :: ds => c == d && strStartsWithL cs ds

/-- Python `str.replace` (all occurrences, left to right,
non-overlapping); the generator only uses nonempty search strings. -/
def strReplaceGo : Nat → List Char → List Char → List Char → List Char
  | 0, l, _, _ => l
  | _ + 1, [], _, _ => []
  | fuel + 1, c :: cs, old, nw =>
    if strStartsWithL (c :: cs) old && !old.isEmpty then
      nw ++ strReplaceGo fuel ((c :: cs).drop old.length) old nw
    else c :: strReplaceGo fuel cs old nw

def strReplace (s old nw : String) : String :=
  String.mk (strReplaceGo s.data.length s.data old.data nw.data)

/-- A single-quote character, for the `@alias('...')` decorations. -/
def sq : String := String.mk [Char.ofNat 39]

/-- The `node['name']` attribute: an Identifier node with its
`escapedText`, or any other value (rendered through its repr by
`get_name`). -/
inductive TsName where
  | ident (escapedText : String)
  | other (reprText : String)

/-- The `.d.ts` schema nodes, one constructor per `kind` the `match` in
`visit_node` dispatches on, carrying the attributes the generator
reads.  Absent optional attributes (`heritageClauses`, `modifiers`,
`typeArguments`, `questionToken`, `VariableDeclarationList`) are
modelled as empty / `false`. -/
inductive TsNode where
  | SourceFile (statements : List TsNode)
  | ClassDeclaration (name : TsName) (heritageClauses : List TsNode)
      (members : List TsNode) (modifiers : List String)
  | InterfaceDeclaration (name : TsName) (heritageClauses : List TsNode)
      (members : List TsNode) (modifiers : List String)
  | HeritageClause (types : List TsNode)
  | ExpressionWithTypeArguments (expression : String)
  | Ctor (parameters : List TsNode)
  | Parameter (name : TsName) (questionToken : Bool) (type : TsNode)
  | PropertyDeclaration (name : TsName) (modifiers : List String) (type : TsNode)
  | PropertySignature (name : TsName) (modifiers : List String) (type : TsNode)
  | MethodDeclaration (name : TsName) (parameters : List TsNode) (type : TsNode)
  | MethodSignature (name : TsName) (parameters : List TsNode) (type : TsNode)
  | FunctionDeclaration (name : TsName) (parameters : List TsNode) (type : TsNode)
  | TypeAliasDeclaration (name : TsName) (type : TsNode)
  | ParenthesizedType (type : TsNode)
  | FunctionType (parameters : List TsNode) (type : TsNode)
  | VoidKeyword
  | AnyKeyword
  | BooleanKeyword
  | TrueKeyword
  | FalseKeyword
  | NumberKeyword
  | BigIntKeyword
  | StringKeyword
  | IntersectionType (types : List TsNode)
  | IndexedAccessType
  | UnionType (types : List TsNode)
  | LiteralType (literal : TsNode)
  | StringLiteral (text : String)
  | FirstLiteralToken (text : String)
  | NullKeyword
  | UndefinedKeyword
  | TypeQuery (exprName : String)
  | TypeLiteral (members : List TsNode)
  | TupleType (elements : List TsNode)
  | NamedTupleMember (type : TsNode)
  | ArrayType (elementType : TsNode)
  | TypeReference (typeName : String) (typeArguments : List TsNode)
  | FirstStatement (decls : List TsNode)
  | VariableDeclaration (name : TsName)
  | ModuleDeclaration
  | UnknownKind (kind : String)

/-- `get_name`. -/
def getName : TsName → String
  | .ident t => t
  | .other r => "# " ++ r

/-- `is_read_only`. -/
def isReadOnly (modifiers : List String) : Bool :=
  modifiers.contains "ReadonlyKeyword"

/-- `is_static`. -/
def isStatic (modifiers : List String) : Bool :=
  modifiers.contains "StaticKeyword"

/-- Generator instance state: `_code`, `_buffer`, `_imports` (a dict
from module to an import-name set, in first-use key order) and
`_new_types`. -/
structure TsSt where
  code : List String
  buffer : String
  imports : List (String × List String)
  newTypes : List String

/-- The state of `PyGenerator.__init__`. -/
def initTsSt : TsSt :=
  { code := [], buffer := "", imports := [], newTypes := [] }

/-- The `ctx` dict passed through `visit_node`: `indent` plus the
optional keys `with_name`/`with_default` (default `True`), `methods`
(present only inside a class body) and `is_async`. -/
structure TsCtx where
  indent : Nat
  withName : Bool
  withDefault : Bool
  methods : Option (List (String × List Nat))
  isAsync : Bool

/-- `{'indent': 0}`, the ctx of the `traverse` entry call. -/
def initTsCtx : TsCtx :=
  { indent := 0, withName := true, withDefault := true,
    methods := none, isAsync := false }

/-- `INDENT * n`. -/
def tsIndent (n : Nat) : String := String.join (List.replicate n "    ")

/-- `flush`. -/
def flush (s : TsSt) : TsSt :=
  if s.buffer != "" then { s with code := s.code ++ [s.buffer], buffer := "" }
  else s

/-- `add_line` (the generator never passes a nonzero `backtrack`). -/
def addLine (s : TsSt) (line : String) (ind : Nat) : TsSt :=
  let s := flush s
  { s with code := s.code ++ [tsIndent ind ++ line] }

/-- Python `list.insert` (clamping at both ends, as `take`/`drop`
do). -/
def listInsertAt (l : List String) (i : Nat) (x : String) : List String :=
  l.take i ++ x :: l.drop i

/-- `insert_line` (only the ctx's `indent` is read). -/
def insertLine (s : TsSt) (lineNo : Nat) (line : String) (ind : Nat) : TsSt :=
  { s with code := listInsertAt s.code lineNo (tsIndent ind ++ line) }

/-- `add`. -/
def add (s : TsSt) (str : String) (ctx : TsCtx) : TsSt :=
  { s with buffer := (if s.buffer == "" then tsIndent ctx.indent else s.buffer) ++ str }

/-- `add_empty`. -/
def addEmpty (s : TsSt) (count : Nat) : TsSt :=
  let s := flush s
  { s with code := s.code ++ List.replicate count "" }

/-- `add_import`: `self._imports.setdefault(_from, set()).add(import_obj)`. -/
def addImport (s : TsSt) (f imp : String) : TsSt :=
  if s.imports.any (fun p => p.1 == f) then
    { s with imports := s.imports.map (fun p =>
        if p.1 == f then (p.1, if p.2.contains imp then p.2 else p.2 ++ [imp]) else p) }
  else { s with imports := s.imports ++ [(f, [imp])] }

/-- `cls_ctx['methods'].setdefault(method_name, []).append(line_no)`. -/
def methodsAdd (ms : List (String × List Nat)) (name : String) (ln : Nat) :
    List (String × List Nat) :=
  if ms.any (fun p => p.1 == name) then
    ms.map (fun p => if p.1 == name then (p.1, p.2 ++ [ln]) else p)
  else ms ++ [(name, [ln])]

/-- One level of `visit_node`: the node, the generator state and the
(shared, mutable) ctx dict; a raised exception propagates. -/
abbrev TsVisit := TsNode → TsSt → TsCtx → Except String (TsSt × TsCtx)

/-- The `for stmt: visit_node(stmt, ctx)` loops on a shared ctx
(SourceFile statements, heritage clauses, class members,
FirstStatement declarations). -/
def tsStmts (vn : TsVisit) : List TsNode → TsSt → TsCtx → Except String (TsSt × TsCtx)
  | [], s, ctx => .ok (s, ctx)
  | x :: rest, s, ctx => do
      let (s, ctx) ← vn x s ctx
      tsStmts vn rest s ctx

/-- The `for idx, item in enumerate(...)` loops that write `sep`
before every element but the first, on a shared ctx. -/
def tsSepFold (vn : TsVisit) (sep : String) :
    List TsNode → Nat → TsSt → TsCtx → Except String (TsSt × TsCtx)
  | [], _, s, ctx => .ok (s, ctx)
  | x :: rest, idx, s, ctx => do
      let s := if idx > 0 then add s sep ctx else s
      let (s, ctx) ← vn x s ctx
      tsSepFold vn sep rest (idx + 1) s ctx

/-- The parameter loops of Constructor and MethodDeclaration: `, `
before every parameter, shared ctx. -/
def tsCommaParams (vn : TsVisit) :
    List TsNode → TsSt → TsCtx → Except String (TsSt × TsCtx)
  | [], s, ctx => .ok (s, ctx)
  | x :: rest, s, ctx => do
      let s := add s ", " ctx
      let (s, ctx) ← vn x s ctx
      tsCommaParams vn rest s ctx

/-- The FunctionType parameter loop: each parameter is visited with a
fresh `{**ctx, 'with_name': False, 'with_default': False}` copy whose
mutations are discarded. -/
def tsFnTypeParams (vn : TsVisit) :
    List TsNode → Nat → TsSt → TsCtx → Except String (TsSt × TsCtx)
  | [], _, s, ctx => .ok (s, ctx)
  | x :: rest, idx, s, ctx => do
      let s := if idx > 0 then add s ", " ctx else s
      let (s, _) ← vn x s { ctx with withName := false, withDefault := false }
      tsFnTypeParams vn rest (idx + 1) s ctx

/-- The inner decorator-insertion loop over one overloaded method's
recorded line numbers. -/
def decorateLines (s : TsSt) (mname : String) :
    List Nat → Nat → Nat → Nat → TsSt × Nat
  | [], _, offset, _ => (s, offset)
  | ln :: rest, idx, offset, ind =>
      let line := if idx == 0 then "@singledispatchmethod"
                  else "@" ++ mname ++ ".register"
      let s := insertLine s (ln + offset) line ind
      decorateLines s mname rest (idx + 1) (offset + 1) ind

/-- The `for method_name, line_nums in cls_ctx['methods'].items()`
loop: overloaded methods get `functools.singledispatchmethod` and the
register decorators inserted at their recorded lines. -/
def decorateMethods (s : TsSt) :
    List (String × List Nat) → Nat → Nat → TsSt × Nat
  | [], offset, _ => (s, offset)
  | (mname, lineNums) :: rest, offset, ind =>
      if lineNums.length > 1 then
        let s := addImport s "functools" "singledispatchmethod"
        let (s, offset) := decorateLines s mname lineNums 0 offset ind
        decorateMethods s rest offset ind
      else decorateMethods s rest offset ind

/-- The shared ClassDeclaration/InterfaceDeclaration arm. -/
def classLike (vn : TsVisit) (isInterface : Bool) (name : TsName)
    (heritageClauses members : List TsNode) (s : TsSt) (ctx : TsCtx) :
    Except String (TsSt × TsCtx) := do
  let s := addEmpty s 2
  let s := addLine s "@external" ctx.indent
  let s := add s ("class " ++ getName name) ctx
  let (s, ctx) ←
    if !heritageClauses.isEmpty then do
      let s := add s "(" ctx
      let (s, ctx) ← tsStmts vn heritageClauses s ctx
      (.ok (add s ")" ctx, ctx) : Except String (TsSt × TsCtx))
    else if isInterface then
      let s := addImport s "typings" "Protocol"
      .ok (add s "(Protocol)" ctx, ctx)
    else .ok (s, ctx)
  let s := add s ":" ctx
  if !members.isEmpty then do
    let clsCtx : TsCtx := { ctx with indent := ctx.indent + 1, methods := some [] }
    let (s, clsCtx) ← tsStmts vn members s clsCtx
    match clsCtx.methods with
    | some ms =>
        let (s, _) := decorateMethods s ms 0 clsCtx.indent
        .ok (s, ctx)
    | none => .error "KeyError"
  else
    .ok (addLine s "..." (ctx.indent + 1), ctx)

/-- The shared PropertyDeclaration/PropertySignature arm. -/
def propLike (vn : TsVisit) (name : TsName) (modifiers : List String)
    (ty : TsNode) (s : TsSt) (ctx : TsCtx) : Except String (TsSt × TsCtx) := do
  let s := addEmpty s 1
  let jsName := getName name
  let propertyName := toPython jsName
  let isAliased := propertyName != jsName
  if !isStatic modifiers then do
    let s := addLine s "@property" ctx.indent
    let s := if isAliased then
        addLine s ("@alias(" ++ sq ++ jsName ++ sq ++ ")") ctx.indent
      else s
    let s := add s ("def " ++ propertyName ++ "(self) -> ") ctx
    let (s, ctx) ← vn ty s ctx
    let s := add s ":" ctx
    let s := addLine s "raise NotImplementedError" (ctx.indent + 1)
    if !isReadOnly modifiers then do
      let s := addEmpty s 1
      let s := addLine s ("@" ++ propertyName ++ ".setter") ctx.indent
      let s := if isAliased then
          addLine s ("@alias(" ++ sq ++ jsName ++ sq ++ ")") ctx.indent
        else s
      let s := add s ("def " ++ propertyName ++ "(self, value: ") ctx
      let (s, ctx) ← vn ty s ctx
      .ok (add s ") -> None: ..." ctx, ctx)
    else .ok (s, ctx)
  else do
    let s := add s (propertyName ++ ": ") ctx
    let (s, ctx) ← vn ty s ctx
    .ok (s, ctx)

/-- The shared MethodDeclaration/MethodSignature arm. -/
def methodLike (vn : TsVisit) (name : TsName) (parameters : List TsNode)
    (ty : TsNode) (s : TsSt) (ctx : TsCtx) : Except String (TsSt × TsCtx) := do
  let s := addEmpty s 1
  let jsName := getName name
  let methodName := toPython jsName
  let isAliased := methodName != jsName
  if !strStartsWithL methodName.data ['#'] then
    match ctx.methods with
    | none => .error "KeyError"
    | some ms => do
        let ctx := { ctx with methods := some (methodsAdd ms methodName s.code.length) }
        let s := if isAliased then
            addLine s ("@alias(" ++ sq ++ jsName ++ sq ++ ")") ctx.indent
          else s
        let s := add s ("def " ++ methodName ++ "(self") ctx
        let (s, ctx) ← tsCommaParams vn parameters s ctx
        let s := add s ") -> " ctx
        let (s, ctx) ← vn ty s ctx
        let s := add s ": ..." ctx
        let wasAsync := ctx.isAsync
        let ctx := { ctx with isAsync := false }
        let nb := strReplace s.buffer ("def " ++ methodName) ("async def " ++ methodName)
        let s := if wasAsync then { s with buffer := nb } else s
        .ok (s, ctx)
  else .ok (addLine s methodName ctx.indent, ctx)

/-- One dispatch of `visit_node`, with `vn` the one-level-deeper
visitor. -/
def visitNodeCore (vn : TsVisit) (node : TsNode) (s : TsSt) (ctx : TsCtx) :
    Except String (TsSt × TsCtx) :=
  match node with
  | .SourceFile statements => tsStmts vn statements s ctx
  | .ClassDeclaration name hs members _ => classLike vn false name hs members s ctx
  | .InterfaceDeclaration name hs members _ => classLike vn true name hs members s ctx
  | .HeritageClause types => tsSepFold vn ", " types 0 s ctx
  | .ExpressionWithTypeArguments expression => .ok (add s expression ctx, ctx)
  | .Ctor parameters => do
      let s := addEmpty s 1
      let s := add s "def __init__(self" ctx
      let (s, ctx) ← tsCommaParams vn parameters s ctx
      .ok (add s "): ..." ctx, ctx)
  | .Parameter name questionToken ty => do
      let s := if ctx.withName then
          add s (toPython (getName name) ++ ": ") ctx
        else s
      let optional := questionToken
      let s := if optional then
          add (addImport s "typings" "Optional") "Optional[" ctx
        else s
      let (s, ctx) ← vn ty s ctx
      let s := if optional then
          (if ctx.withDefault then add s "] = None" ctx else add s "]" ctx)
        else s
      .ok (s, ctx)
  | .PropertyDeclaration name modifiers ty => propLike vn name modifiers ty s ctx
  | .PropertySignature name modifiers ty => propLike vn name modifiers ty s ctx
  | .MethodDeclaration name parameters ty => methodLike vn name parameters ty s ctx
  | .MethodSignature name parameters ty => methodLike vn name parameters ty s ctx
  | .FunctionDeclaration name parameters ty => do
      let s := addEmpty s 2
      let jsName := getName name
      let functionName := toPython jsName
      let s := if functionName != jsName then
          addLine s ("@alias(" ++ sq ++ jsName ++ sq ++ ")") ctx.indent
        else s
      let s := add s ("def " ++ functionName ++ "(") ctx
      let (s, ctx) ← tsSepFold vn ", " parameters 0 s ctx
      let s := add s ") -> " ctx
      let (s, ctx) ← vn ty s ctx
      .ok (add s ": ..." ctx, ctx)
  | .TypeAliasDeclaration name ty => do
      let s := addEmpty s 2
      let s := add s (getName name ++ " = ") ctx
      let (s, ctx) ← vn ty s ctx
      .ok (s, ctx)
  | .ParenthesizedType ty => vn ty s ctx
  | .FunctionType parameters ty => do
      let s := addImport s "typings" "Callable"
      let s := add s "Callable[" ctx
      let s := add s "[" ctx
      let (s, ctx) ← tsFnTypeParams vn parameters 0 s ctx
      let s := add s "], " ctx
      let (s, ctx) ← vn ty s ctx
      .ok (add s "]" ctx, ctx)
  | .VoidKeyword => .ok (add s "None" ctx, ctx)
  | .AnyKeyword => .ok (add s "Any" ctx, ctx)
  | .BooleanKeyword => .ok (add s "bool" ctx, ctx)
  | .TrueKeyword => .ok (add s "True" ctx, ctx)
  | .FalseKeyword => .ok (add s "False" ctx, ctx)
  | .NumberKeyword => .ok (add s "int" ctx, ctx)
  | .BigIntKeyword => .ok (add s "int" ctx, ctx)
  | .StringKeyword => .ok (add s "str" ctx, ctx)
  | .IntersectionType types =>
      (match types with
       | t :: _ => vn t s ctx
       | [] => .error "IndexError")
  | .IndexedAccessType => .ok (add s "TODO_INDEXED_ACCESS_TYPE" ctx, ctx)
  | .UnionType types => tsSepFold vn " | " types 0 s ctx
  | .LiteralType literal => do
      let s := addImport s "typings" "Literal"
      let s := add s "Literal[" ctx
      let (s, ctx) ← vn literal s ctx
      .ok (add s "]" ctx, ctx)
  | .StringLiteral text => .ok (add s (sq ++ text ++ sq) ctx, ctx)
  | .FirstLiteralToken text => .ok (add s text ctx, ctx)
  | .NullKeyword => .ok (add s "None" ctx, ctx)
  | .UndefinedKeyword => .ok (add s "None" ctx, ctx)
  | .TypeQuery exprName => do
      let s := addImport s "typings" "Type"
      let s := add s "Type[" ctx
      let s := add s exprName ctx
      .ok (add s "]" ctx, ctx)
  | .TypeLiteral _ => .error "NameError"
  | .TupleType elements => do
      let s := addImport s "typings" "Tuple"
      let s := add s "Tuple[" ctx
      let (s, ctx) ← tsSepFold vn ", " elements 0 s ctx
      .ok (add s "]" ctx, ctx)
  | .NamedTupleMember ty => vn ty s ctx
  | .ArrayType elementType => do
      let s := addImport s "typings" "List"
      let s := add s "List[" ctx
      let (s, ctx) ← vn elementType s ctx
      .ok (add s "]" ctx, ctx)
  | .TypeReference typeName typeArguments => do
      let (s, ctx, mapped) :=
        if typeName == "Promise" then
          (addImport s "typings" "Awaitable", { ctx with isAsync := true }, "Awaitable")
        else if typeName == "Map" then
          (addImport s "typings" "Dict", ctx, "Dict")
        else if typeName == "IterableIterator" then
          (addImport s "typings" "Iterable", ctx, "Iterable")
        else if typeName == "This" then
          (addImport s "typings" "Self", ctx, "Self")
        else (s, ctx, typeName)
      let s := add s mapped ctx
      if !typeArguments.isEmpty then do
        let s := add s "[" ctx
        let (s, ctx) ← tsSepFold vn ", " typeArguments 0 s ctx
        .ok (add s "]" ctx, ctx)
      else .ok (s, ctx)
  | .FirstStatement decls => tsStmts vn decls s ctx
  | .VariableDeclaration name => do
      let s := addEmpty s 2
      .ok (add s (getName name ++ ": Any") ctx, ctx)
  | .ModuleDeclaration => .ok (s, ctx)
  | .UnknownKind _ => .ok (s, ctx)

/-- The recursive `visit_node`; only this function consumes fuel, one
unit per nesting level. -/
def visitNode : Nat → TsNode → TsSt → TsCtx → Except String (TsSt × TsCtx)
  | 0, _, _, _ => .error "fuel"
  | fuel + 1, node, s, ctx =>
      visitNodeCore (fun n s2 c2 => visitNode fuel n s2 c2) node s ctx

/-- `traverse`: visit the root with `{'indent': 0}` and flush. -/
def traverse (fuel : Nat) (ast : TsNode) : Except String TsSt := do
  let (s, _) ← visitNode fuel ast initTsSt initTsCtx
  .ok (flush s)

/-- `insert_types`: each synthesized type is inserted at line 0. -/
def insertTypes (s : TsSt) : TsSt :=
  s.newTypes.foldl (fun acc nt => insertLine acc 0 nt 0) s

/-- The loop of `insert_imports`: one `from ... import ...` line per
dict entry, inserted at positions 0, 1, 2, ... in key (first-use)
order. -/
def insertImportsGo (code : List String) (idx : Nat) :
    List (String × List String) → List String
  | [] => code
  | (f, imps) :: rest =>
      insertImportsGo
        (listInsertAt code idx ("from " ++ f ++ " import " ++ String.intercalate ", " imps))
        (idx + 1) rest

/-- `insert_imports`. -/
def insertImports (s : TsSt) : TsSt :=
  { s with code := insertImportsGo s.code 0 s.imports }

/-- The line list `to_file` writes: synthesized types inserted, the two
woma imports added, the import statements inserted. -/
def toFileLines (s : TsSt) : List String :=
  (insertImports (addImport (addImport (insertTypes s)
      "woma.host.bindgen" "external") "woma.host.bindgen" "alias")).code

/-- The rendering of one accumulated imports entry. -/
def importLine (p : String × List String) : String :=
  "from " ++ p.1 ++ " import " ++ String.intercalate ", " p.2

/-- What traversal preserves: the synthesized-type list is unchanged
and the import dict's key list only grows at the end (first-use
order). -/
def TsPres (s s2 : TsSt) : Prop :=
  s2.newTypes = s.newTypes ∧
    ∃ t, s2.imports.map Prod.fst = s.imports.map Prod.fst ++ t

/-- Accumulator-level preservation of an `Except` visit result. -/
def TPresA (s : TsSt) (r : Except String (TsSt × TsCtx)) : Prop :=
  ∀ s2 ctx2, r = .ok (s2, ctx2) → TsPres s s2

/-- Visitor-level preservation. -/
def TsPresV (vn : TsVisit) : Prop :=
  ∀ n s ctx s2 ctx2, vn n s ctx = .ok (s2, ctx2) → TsPres s s2


theorem visit_succ (cfg : Config) (fuel : Nat) (n : CNode) (parent : Option CNode)
    (flag : Option CtxFlag) (noType : Bool) (s : St) :
    visit cfg (fuel + 1) n parent flag noType s =
      if s.skip.contains (clsName n) then .ok ("", s)
      else
        match visitCore cfg (visit cfg fuel) n noType
            { applyFlag flag s with parent := parent } with
        | .error e => .error e
        | .ok (ret, sOut) =>
            .ok (ret, clearFlag flag { sOut with parent := (applyFlag flag s).parent }) := by
  rfl

/-- Every `self.visit` call restores `self._parent` on normal return. -/
theorem visit_parent {cfg : Config} {fuel : Nat} {n : CNode} {parent : Option CNode}
    {flag : Option CtxFlag} {noType : Bool} {s : St} {out : String} {s' : St}
    (h : visit cfg fuel n parent flag noType s = .ok (out, s')) :
    s'.parent = (applyFlag flag s).parent := by
  cases fuel with
  | zero => simp [visit] at h
  | succ fuel =>
    rw [visit_succ] at h
    split at h
    · cases h
      cases flag with
      | none => rfl
      | some f => cases f <;> rfl
    · split at h
      · exact Except.noConfusion h
      · cases h
        cases flag with
        | none => rfl
        | some f => cases f <;> rfl

theorem visitExprM_parent {cfg : Config} {k : Nat} {x : CNode} {parent : Option CNode}
    {s : St} {r : String} {s1 : St}
    (h : visitExprM (visit cfg k) x parent s = .ok (r, s1)) :
    s1.parent = s.parent := by
  unfold visitExprM at h
  split at h
  · rename_i es
    cases hv : visit cfg k (.InitList es) parent none false s with
    | error e => rw [hv] at h; exact Except.noConfusion h
    | ok pr =>
      cases pr with
      | mk rr ss =>
        rw [hv] at h
        simp only [Except.bind, Bind.bind, Except.pure, pure] at h
        cases h
        exact visit_parent hv
  · exact visit_parent h

theorem exprsFold_parent {cfg : Config} {k : Nat} :
    ∀ {exprs : List CNode} {parent : Option CNode} {s : St} {strs : List String} {s1 : St},
      exprsFold (visit cfg k) exprs parent s = .ok (strs, s1) → s1.parent = s.parent := by
  intro exprs
  induction exprs with
  | nil =>
    intro parent s strs s1 h
    simp only [exprsFold] at h
    cases h
    rfl
  | cons x rest ih =>
    intro parent s strs s1 h
    simp only [exprsFold] at h
    cases hx : visitExprM (visit cfg k) x parent s with
    | error e => rw [hx] at h; exact Except.noConfusion h
    | ok pr =>
      cases pr with
      | mk r si =>
        rw [hx] at h
        simp only [Except.bind, Bind.bind] at h
        cases hrest : exprsFold (visit cfg k) rest parent si with
        | error e => rw [hrest] at h; exact Except.noConfusion h
        | ok pr2 =>
          cases pr2 with
          | mk rs s2 =>
            rw [hrest] at h
            simp only [Except.pure, pure] at h
            cases h
            exact (ih hrest).trans (visitExprM_parent hx)


theorem noDefsL_append (a b : List CNode) :
    noDefsL (a ++ b) = (noDefsL a && noDefsL b) := by
  induction a with
  | nil => simp [noDefsL]
  | cons x xs ih => simp [noDefsL, ih, Bool.and_assoc]

theorem noDefsL_drop (k : Nat) {l : List CNode} (h : noDefsL l = true) :
    noDefsL (l.drop k) = true := by
  induction l generalizing k with
  | nil => simpa using h
  | cons x xs ih =>
    cases k with
    | zero => exact h
    | succ k =>
      simp only [noDefsL, Bool.and_eq_true] at h
      exact ih k h.2

theorem noDefsL_toList (o : Option CNode) : noDefsL o.toList = noDefsO o := by
  cases o <;> simp [noDefsO, noDefsL, Option.toList]

theorem noDefsL_children {n : CNode} (h : noDefs n = true) :
    noDefsL (pyChildren n) = true := by
  cases n <;>
    first
    | rfl
    | simp_all [noDefs, pyChildren, noDefsL, noDefsL_append, noDefsL_toList,
        noDefsO, Bool.and_assoc]

theorem stPres_refl (s : St) : StPres s s := ⟨rfl, rfl, fun _ => rfl⟩

theorem stPres_trans {a b c : St} (h1 : StPres a b) (h2 : StPres b c) : StPres a c := by
  obtain ⟨i1, f1, m1⟩ := h1
  obtain ⟨i2, f2, m2⟩ := h2
  refine ⟨i2.trans i1, f2.trans f1, fun hle => ?_⟩
  have hm1 := m1 hle
  rw [m2 (by rw [hm1, i1]; exact hle), hm1]

theorem presA_error {α : Type} {s : St} {e : String} :
    PresA (α := α) s (.error e) := fun _ _ h => Except.noConfusion h

theorem presA_pure {α : Type} {s : St} {x : α} : PresA s (.ok (x, s)) := by
  intro a s' h
  cases h
  exact stPres_refl s

theorem presA_pure_of {α : Type} {s s1 : St} {x : α} (h : StPres s s1) :
    PresA s (.ok (x, s1)) := by
  intro a s' hh
  cases hh
  exact h

theorem presA_bind {α β : Type} {s : St} {r : Except String (α × St)}
    {f : α × St → Except String (β × St)}
    (h1 : PresA s r) (h2 : ∀ a s1, r = .ok (a, s1) → PresA s1 (f (a, s1))) :
    PresA s (r >>= f) := by
  intro b s2 hb
  cases r with
  | error e => exact Except.noConfusion hb
  | ok pr =>
    cases pr with
    | mk a s1 =>
      exact stPres_trans (h1 a s1 rfl) (h2 a s1 rfl b s2 hb)

theorem presA_bindE {α β : Type} {s : St} {r : Except String β}
    {f : β → Except String (α × St)}
    (h : ∀ x, r = .ok x → PresA s (f x)) : PresA s (r >>= f) := by
  intro a s' ha
  cases r with
  | error e => exact Except.noConfusion ha
  | ok x => exact h x rfl a s' ha

theorem presV_presA {v : VisitFn} (hv : PresV v) {n parent flag noType s}
    (hn : noDefs n = true) (hf : flag ≠ some CtxFlag.FuncBody) :
    PresA s (v n parent flag noType s) := by
  intro a s' h
  obtain ⟨⟨hi, hm⟩, hb⟩ := hv n parent flag noType s a s' hn h
  exact ⟨hi, hb hf, hm⟩

theorem presA_visitOpt {v : VisitFn} (hv : PresV v) {o parent flag s}
    (ho : noDefsO o = true) (hf : flag ≠ some CtxFlag.FuncBody) :
    PresA s (visitOpt v o parent flag s) := by
  cases o with
  | none => exact presA_pure
  | some n => exact presV_presA hv ho hf

theorem presA_visitExprM {v : VisitFn} (hv : PresV v) {n parent s}
    (hn : noDefs n = true) : PresA s (visitExprM v n parent s) := by
  unfold visitExprM
  split
  · exact presA_bind (presV_presA hv hn (by simp))
      (fun a s1 _ => presA_pure)
  · exact presV_presA hv hn (by simp)

theorem presA_parenthIf {v : VisitFn} (hv : PresV v) {n parent cond s}
    (hn : noDefs n = true) : PresA s (parenthIf v n parent cond s) := by
  unfold parenthIf
  exact presA_bind (presA_visitExprM hv hn) (fun a s1 _ => presA_pure)

theorem presA_generateStmt {v : VisitFn} (hv : PresV v) {n parent addIndent s}
    (hn : noDefs n = true) : PresA s (generateStmt v n parent addIndent s) := by
  unfold generateStmt
  split <;> split <;>
    first
    | exact presA_bind (presV_presA hv hn (by simp)) (fun a s1 _ => presA_pure)
    | exact presV_presA hv hn (by simp)

theorem presA_genTypeMods {v : VisitFn} (hv : PresV v) :
    ∀ {mods : List CNode} {parentParam str nstr s}, noDefsL mods = true →
      PresA s (genTypeMods v mods parentParam str nstr s) := by
  intro mods
  induction mods with
  | nil => intro _ _ _ _ _; exact presA_pure
  | cons m rest ih =>
    intro parentParam str nstr s hm
    simp only [noDefsL, Bool.and_eq_true] at hm
    unfold genTypeMods
    split
    · exact ih hm.2
    · rename_i args t
      refine presA_bind (presA_visitOpt hv ?_ (by simp)) (fun a s1 _ => ih hm.2)
      have := hm.1
      simp only [noDefs, Bool.and_eq_true] at this
      exact this.1
    · exact ih hm.2
    · exact ih hm.2

theorem presA_generateType_aux {cfg : Config} {v : VisitFn} (hv : PresV v) :
    ∀ (m : Nat) (tn : CNode) (parentParam : Option CNode) (modifiers : List CNode)
      (emitDeclname : Bool) (s : St),
      sizeOf tn ≤ m → noDefs tn = true → noDefsL modifiers = true →
      PresA s (generateType cfg v tn parentParam modifiers emitDeclname s) := by
  intro m
  induction m using Nat.strong_induction_on with
  | _ m ih =>
    intro tn parentParam modifiers emitDeclname s hsz ht hm
    cases tn with
    | TypeDecl dn ty =>
      simp only [noDefs] at ht
      unfold generateType
      refine presA_bind (presV_presA hv ht (by simp)) (fun a s1 _ => ?_)
      refine presA_bind (presA_genTypeMods hv hm) (fun b s2 _ => ?_)
      obtain ⟨bs, bn⟩ := b
      dsimp only
      split
      · split <;> exact presA_pure
      · exact presA_pure
    | Typename nm ty =>
      simp only [noDefs] at ht
      unfold generateType
      have hlt : sizeOf ty < sizeOf (CNode.Typename nm ty) := by simp
      exact ih (sizeOf ty) (by omega) ty _ _ _ _ (le_refl _) ht rfl
    | ArrayDecl ty =>
      simp only [noDefs] at ht
      unfold generateType
      have hlt : sizeOf ty < sizeOf (CNode.ArrayDecl ty) := by simp
      exact ih (sizeOf ty) (by omega) ty _ _ _ _ (le_refl _) ht
        (by simp [noDefsL_append, hm, noDefsL, noDefs, ht])
    | PtrDecl ty =>
      simp only [noDefs] at ht
      unfold generateType
      have hlt : sizeOf ty < sizeOf (CNode.PtrDecl ty) := by simp
      exact ih (sizeOf ty) (by omega) ty _ _ _ _ (le_refl _) ht
        (by simp [noDefsL_append, hm, noDefsL, noDefs, ht])
    | FuncDecl args ty =>
      simp only [noDefs, Bool.and_eq_true] at ht
      unfold generateType
      have hlt : sizeOf ty < sizeOf (CNode.FuncDecl args ty) := by simp
      exact ih (sizeOf ty) (by omega) ty _ _ _ _ (le_refl _) ht.2
        (by simp [noDefsL_append, hm, noDefsL, noDefs, ht.1, ht.2])
    | Decl nm bs ini ty =>
      unfold generateType
      exact presA_error
    | IdentifierType names =>
      unfold generateType
      exact presA_pure
    | _ =>
      unfold generateType
      exact presV_presA hv ht (by simp)

theorem presA_generateType {cfg : Config} {v : VisitFn} (hv : PresV v)
    {tn : CNode} {parentParam modifiers emitDeclname s} (ht : noDefs tn = true)
    (hm : noDefsL modifiers = true) :
    PresA s (generateType cfg v tn parentParam modifiers emitDeclname s) :=
  presA_generateType_aux hv (sizeOf tn) tn parentParam modifiers emitDeclname s
    (le_refl _) ht hm

theorem presA_generateDecl {cfg : Config} {v : VisitFn} (hv : PresV v)
    {n : CNode} {s : St} (hn : noDefs n = true) :
    PresA s (generateDecl cfg v n s) := by
  unfold generateDecl
  split
  · rename_i nm bs ini dty
    simp only [noDefs, Bool.and_eq_true] at hn
    exact presA_generateType hv hn.2 rfl
  · exact presA_error

theorem presA_stmtsFold {v : VisitFn} (hv : PresV v) :
    ∀ {items : List CNode} {parent addIndent acc s}, noDefsL items = true →
      PresA s (stmtsFold v items parent addIndent acc s) := by
  intro items
  induction items with
  | nil => intro _ _ _ _ _; exact presA_pure
  | cons x rest ih =>
    intro parent addIndent acc s hl
    simp only [noDefsL, Bool.and_eq_true] at hl
    unfold stmtsFold
    exact presA_bind (presA_generateStmt hv hl.1) (fun a s1 _ => ih hl.2)

theorem presA_exprsFold {v : VisitFn} (hv : PresV v) :
    ∀ {items : List CNode} {parent s}, noDefsL items = true →
      PresA s (exprsFold v items parent s) := by
  intro items
  induction items with
  | nil => intro _ _ _; exact presA_pure
  | cons x rest ih =>
    intro parent s hl
    simp only [noDefsL, Bool.and_eq_true] at hl
    unfold exprsFold
    refine presA_bind (presA_visitExprM hv hl.1) (fun a s1 _ => ?_)
    exact presA_bind (ih hl.2) (fun b s2 _ => presA_pure)

theorem presA_joinFold {v : VisitFn} (hv : PresV v) :
    ∀ {items : List CNode} {parent noType s}, noDefsL items = true →
      PresA s (joinFold v items parent noType s) := by
  intro items
  induction items with
  | nil => intro _ _ _ _; exact presA_pure
  | cons x rest ih =>
    intro parent noType s hl
    simp only [noDefsL, Bool.and_eq_true] at hl
    unfold joinFold
    refine presA_bind (presV_presA hv hl.1 (by simp)) (fun a s1 _ => ?_)
    exact presA_bind (ih hl.2) (fun b s2 _ => presA_pure)

theorem presA_bind_pure {α β : Type} {s : St} {x : α}
    {f : α × St → Except String (β × St)}
    (h : PresA s (f (x, s))) : PresA s (Except.ok (x, s) >>= f) := fun b s2 hb =>
  h b s2 hb

theorem presA_ifRegular {v : VisitFn} (hv : PresV v)
    {nd : CNode} {condO : Option CNode} {iftrue : CNode} {iffalse : Option CNode} {s : St}
    (hc : noDefsO condO = true) (ht : noDefs iftrue = true) (hf : noDefsO iffalse = true) :
    PresA s (ifRegular v nd condO iftrue iffalse s) := by
  unfold ifRegular
  cases condO with
  | none =>
    dsimp only
    refine presA_bind_pure ?_
    dsimp only
    refine presA_bind (presA_generateStmt hv ht) (fun b s2 _ => ?_)
    dsimp only
    split
    · exact presA_bind (presA_generateStmt hv (by simp_all [noDefsO]))
        (fun c s3 _ => presA_pure)
    · exact presA_bind (presA_generateStmt hv (by simp_all [noDefsO]))
        (fun c s3 _ => presA_pure)
    · exact presA_pure
  | some c =>
    simp only [noDefsO] at hc
    dsimp only
    refine presA_bind (presV_presA hv hc (by simp)) (fun a s1 _ => ?_)
    dsimp only
    refine presA_bind_pure ?_
    dsimp only
    refine presA_bind (presA_generateStmt hv ht) (fun b s2 _ => ?_)
    dsimp only
    split
    · exact presA_bind (presA_generateStmt hv (by simp_all [noDefsO]))
        (fun c2 s3 _ => presA_pure)
    · exact presA_bind (presA_generateStmt hv (by simp_all [noDefsO]))
        (fun c2 s3 _ => presA_pure)
    · exact presA_pure

theorem extractEffects_noDefs :
    ∀ (m : Nat) (n : CNode) (pre post : Option CNode) (ce : CNode),
      sizeOf n ≤ m → noDefs n = true → extractEffects n = .ok (pre, post, ce) →
      noDefsO pre = true ∧ noDefsO post = true ∧ noDefs ce = true := by
  intro m
  induction m using Nat.strong_induction_on with
  | _ m ih =>
    intro n pre post ce hsz hn hex
    cases n with
    | UnaryOp op e =>
      simp only [noDefs] at hn
      unfold extractEffects at hex
      split at hex
      · cases hex
        exact ⟨rfl, by simp [noDefsO, noDefs, hn], hn⟩
      · split at hex
        · cases hex
          exact ⟨by simp [noDefsO, noDefs, hn], by simp [noDefsO, noDefs, hn], hn⟩
        · exact Except.noConfusion hex
    | BinaryOp op l r =>
      simp only [noDefs, Bool.and_eq_true] at hn
      unfold extractEffects at hex
      cases hl : extractEffects l with
      | error e => rw [hl] at hex; exact Except.noConfusion hex
      | ok pl =>
        obtain ⟨lpre, lpost, lexpr⟩ := pl
        cases hr : extractEffects r with
        | error e => rw [hl, hr] at hex; exact Except.noConfusion hex
        | ok pr =>
          obtain ⟨rpre, rpost, rexpr⟩ := pr
          rw [hl, hr] at hex
          simp only [Except.bind, Bind.bind, Except.pure, pure] at hex
          have hltl : sizeOf l < sizeOf (CNode.BinaryOp op l r) := by simp <;> omega
          have hltr : sizeOf r < sizeOf (CNode.BinaryOp op l r) := by simp <;> omega
          have ihl := ih (sizeOf l) (by omega) l lpre lpost lexpr (le_refl _) hn.1 hl
          have ihr := ih (sizeOf r) (by omega) r rpre rpost rexpr (le_refl _) hn.2 hr
          cases hex
          refine ⟨?_, ?_, by simp [noDefs, ihl.2.2, ihr.2.2]⟩
          · cases lpre <;> cases rpre <;>
              simp_all [noDefsO, List.filterMap, noDefs, noDefsL]
          · cases lpost <;> cases rpost <;>
              simp_all [noDefsO, List.filterMap, noDefs, noDefsL]
    | _ =>
      unfold extractEffects at hex
      split at hex
      · cases hex
        exact ⟨rfl, rfl, hn⟩
      · exact Except.noConfusion hex

theorem stPres_skip {s : St} {l : List String} : StPres s { s with skip := l } :=
  ⟨rfl, rfl, fun _ => rfl⟩

theorem presA_stiEmit {v : VisitFn} (hv : PresV v) {nd caseNode : CNode} :
    ∀ {blocks : List (CNode × Nat)} {i acc} {shared : List CNode} {s},
      noDefsL shared = true → blocksOk blocks = true →
      PresA s (stiEmit v nd caseNode blocks i acc shared s) := by
  intro blocks
  induction blocks with
  | nil => intro _ _ _ _ _ _; exact presA_pure
  | cons bo rest ih =>
    obtain ⟨bc, offset⟩ := bo
    intro i acc shared s hsh hbl
    simp only [blocksOk, List.all_cons, Bool.and_eq_true] at hbl
    unfold stiEmit
    split
    · refine presA_bind (presV_presA hv hbl.1 (by simp)) (fun a s1 _ => ?_)
      refine presA_bind (presV_presA hv ?_ (by simp)) (fun b s2 _ => ih hsh hbl.2)
      simp only [noDefs]
      exact noDefsL_drop offset hsh
    · refine presA_bind (presV_presA hv hbl.1 (by simp)) (fun a s1 _ => ?_)
      refine presA_bind (presV_presA hv ?_ (by simp)) (fun b s2 _ => ih hsh hbl.2)
      simp only [noDefs]
      exact noDefsL_drop offset hsh

theorem stiSubs_pres {v : VisitFn} (hv : PresV v) {nd cond caseNode : CNode} :
    ∀ {subs : List CNode} {hasBreak acc idx} {shared : List CNode}
      {blocks : List (CNode × Nat)} {s out s'},
      noDefsL subs = true → noDefsL shared = true → blocksOk blocks = true →
      stiSubs v nd cond caseNode subs hasBreak acc idx shared blocks s = .ok (out, s') →
      StPres s s' ∧ noDefsL out.2.2.1 = true ∧ blocksOk out.2.2.2 = true := by
  intro subs
  induction subs with
  | nil =>
    intro hasBreak acc idx shared blocks s out s' hsub hsh hbl h
    unfold stiSubs at h
    cases h
    exact ⟨stPres_refl s, hsh, hbl⟩
  | cons sub rest ih =>
    intro hasBreak acc idx shared blocks s out s' hsub hsh hbl h
    simp only [noDefsL, Bool.and_eq_true] at hsub
    unfold stiSubs at h
    split at h
    · cases he : stiEmit v nd caseNode blocks 0 acc shared s with
      | error e => rw [he] at h; exact Except.noConfusion h
      | ok pr =>
        obtain ⟨acc2, s2⟩ := pr
        rw [he] at h
        simp only [Except.bind, Bind.bind] at h
        have hp := presA_stiEmit hv hsh hbl acc2 s2 he
        obtain ⟨hp2, hinv⟩ := ih hsub.2 hsh (by simp [blocksOk]) h
        exact ⟨stPres_trans hp hp2, hinv⟩
    · split at h
      · exact Except.noConfusion h
      · refine ih hsub.2 ?_ hbl h
        rw [noDefsL_append]
        simp [hsh, noDefsL, hsub.1]

theorem presA_stiStmts {v : VisitFn} (hv : PresV v) {nd cond : CNode}
    (hc : noDefs cond = true) :
    ∀ {stmts : List CNode} {acc idx} {shared : List CNode}
      {blocks : List (CNode × Nat)} {s},
      noDefsL stmts = true → noDefsL shared = true → blocksOk blocks = true →
      PresA s (stiStmts v nd cond stmts acc idx shared blocks s) := by
  intro stmts
  induction stmts with
  | nil => intro _ _ _ _ _ _ _ _; exact presA_pure
  | cons stmt rest ih =>
    intro acc idx shared blocks s hst hsh hbl
    simp only [noDefsL, Bool.and_eq_true] at hst
    unfold stiStmts
    split
    · rename_i cexpr subs
      have hce : noDefs cexpr = true ∧ noDefsL subs = true := by
        have := hst.1
        simp only [noDefs, Bool.and_eq_true] at this
        exact this
      intro a s' h
      simp only [Except.bind, Bind.bind] at h
      cases hsubs : stiSubs v nd cond (.Case cexpr subs) subs false acc idx shared
          (blocks ++ [(CNode.BinaryOp .beq cond cexpr, idx)]) s with
      | error e => rw [hsubs] at h; exact Except.noConfusion h
      | ok pr =>
        obtain ⟨⟨acc2, idx2, shared2, blocks2⟩, s2⟩ := pr
        rw [hsubs] at h
        have hbl2 : blocksOk (blocks ++ [(CNode.BinaryOp .beq cond cexpr, idx)]) = true := by
          simp [blocksOk, List.all_append, noDefs, hc, hce.1]
          simp [blocksOk] at hbl
          exact hbl
        obtain ⟨hp1, hinvs, hinvb⟩ := stiSubs_pres hv hce.2 hsh hbl2 hsubs
        exact stPres_trans hp1 (ih hst.2 hinvs hinvb a s' h)
    · rename_i dstmts
      have hd : noDefsL dstmts = true := by
        have := hst.1
        simpa [noDefs] using this
      intro a s' h
      simp only [Except.bind, Bind.bind] at h
      cases hc2 : v (.Compound dstmts) (some nd) none false
          { s with skip := skipAdd s.skip "Break" } with
      | error e => rw [hc2] at h; exact Except.noConfusion h
      | ok pr =>
        obtain ⟨r, s2⟩ := pr
        rw [hc2] at h
        simp only [Except.bind, Bind.bind] at h
        have hp1 : StPres s s2 :=
          stPres_trans stPres_skip
            (presV_presA hv (by simpa [noDefs] using hd) (by simp) r s2 hc2)
        split at h
        · exact stPres_trans hp1
            (stPres_trans stPres_skip (ih hst.2 hsh hbl a s' h))
        · exact Except.noConfusion h
    · intro a s' h
      exact Except.noConfusion h

theorem presA_switchToIfs {v : VisitFn} (hv : PresV v) {nd cond body : CNode} {s : St}
    (hc : noDefs cond = true) (hb : noDefsL (pyChildren body) = true) :
    PresA s (switchToIfs v nd cond body s) := by
  unfold switchToIfs
  split
  · exact presA_stiStmts hv hc hb rfl rfl
  · exact presA_stiStmts hv hc hb rfl rfl
  · exact presA_error

theorem presA_forToRange {v : VisitFn} (hv : PresV v)
    {iniO condO nxtO : Option CNode} {s : St}
    (hi : noDefsO iniO = true) (hc : noDefsO condO = true) :
    PresA s (forToRange v iniO condO nxtO s) := by
  unfold forToRange
  split
  · rename_i ini nop nexpr cop cleft cright
    simp only [noDefsO, noDefs, Bool.and_eq_true] at hi hc
    cases ini
    case DeclList ds =>
      cases ds
      case nil => exact presA_pure
      case cons d rest =>
        dsimp only
        split
        · refine presA_bindE (fun varName _ => ?_)
          refine presA_bindE (fun initName _ => ?_)
          split
          · split
            · refine presA_bindE (fun condName _ => ?_)
              split
              · refine presA_bind ?_ (fun a s1 _ => ?_)
                · split
                  · simp only [noDefs, noDefsL, Bool.and_eq_true] at hi
                    cases d <;>
                      first
                        | exact presA_error
                        | (have hd := hi.1
                           simp only [noDefs, Bool.and_eq_true] at hd
                           exact presA_visitOpt hv hd.1.2 (by simp))
                  · exact presA_error
                · dsimp only
                  refine presA_bind (presV_presA hv hc.2 (by simp))
                    (fun b s2 _ => by dsimp only; exact presA_pure)
              · exact presA_pure
            · exact presA_pure
          · exact presA_pure
        · exact presA_pure
    case Assignment op lv rv =>
      dsimp only
      split
      · refine presA_bindE (fun varName _ => ?_)
        refine presA_bindE (fun initName _ => ?_)
        split
        · split
          · refine presA_bindE (fun condName _ => ?_)
            split
            · refine presA_bind ?_ (fun a s1 _ => ?_)
              · split
                · rename_i hfalse
                  exact absurd hfalse (by simp)
                · simp only [noDefs, Bool.and_eq_true] at hi
                  exact presV_presA hv hi.2 (by simp)
              · dsimp only
                refine presA_bind (presV_presA hv hc.2 (by simp))
                  (fun b s2 _ => by dsimp only; exact presA_pure)
            · exact presA_pure
          · exact presA_pure
        · exact presA_pure
      · exact presA_pure
    all_goals exact presA_pure
  · exact presA_pure

theorem setIndent_funcBody (s : St) (k : Int) : (setIndent s k).funcBody = s.funcBody := rfl

theorem stPres_bracket {s s2 : St}
    (hfb : s2.funcBody = s.funcBody)
    (hmin : s.minIndent ≤ s.indentLevel → s2.minIndent = s.minIndent) :
    StPres s (setIndent s2 s.indentLevel) := by
  refine ⟨rfl, hfb, fun h => ?_⟩
  show min s2.minIndent s.indentLevel = s.minIndent
  rw [hmin h]
  exact min_eq_left h

theorem presA_compoundBody {v : VisitFn} (hv : PresV v) {items : List CNode}
    {p : Option CNode} {c : Bool} {s : St} (hn : noDefsL items = true) :
    PresA s ((if items.isEmpty then
                (.ok ("", if c = true then setIndent s (s.indentLevel + 1) else s) : Res)
              else stmtsFold v items p false ""
                (if c = true then setIndent s (s.indentLevel + 1) else s)) >>= fun d =>
              (.ok (d.1, if c = true then setIndent d.2 (d.2.indentLevel - 1) else d.2) : Res)) := by
  cases c
  · exact presA_bind
      (by split
          · exact presA_pure
          · exact presA_stmtsFold hv hn)
      (fun a s1 _ => by exact presA_pure)
  · intro a s' h
    simp only [Bind.bind, Except.bind, reduceIte] at h
    split at h
    · exact absurd h (by simp)
    · rename_i pr heq
      obtain ⟨rstr, s2⟩ := pr
      dsimp only at h
      cases h
      split at heq
      · cases heq
        show StPres s (setIndent (setIndent s (s.indentLevel + 1)) (s.indentLevel + 1 - 1))
        rw [show s.indentLevel + 1 - 1 = s.indentLevel from by omega]
        refine stPres_bracket rfl (fun hle => ?_)
        show min s.minIndent (s.indentLevel + 1) = s.minIndent
        exact min_eq_left (by omega)
      · obtain ⟨hI, hF, hM⟩ := presA_stmtsFold hv hn a s2 heq
        have hI2 : s2.indentLevel = s.indentLevel + 1 := hI
        have hF2 : s2.funcBody = s.funcBody := hF
        rw [hI2, show s.indentLevel + 1 - 1 = s.indentLevel from by omega]
        refine stPres_bracket hF2 (fun hle => ?_)
        have hM2 : s2.minIndent = min s.minIndent (s.indentLevel + 1) :=
          hM (min_le_right _ _)
        rw [hM2]
        exact min_eq_left (by omega)

theorem climb_of_stPres {s s2 : St} (h : StPres s s2) : Climb s s2 0 :=
  ⟨h.2.1, by rw [h.1]; ring, le_refl 0, h.2.2⟩

theorem climb_up_to {s s2 : St} {k t : Int} (h : Climb s s2 k)
    (ht : s.indentLevel ≤ t) : Climb s (setIndent s2 t) (t - s.indentLevel) := by
  obtain ⟨hf, hi, hk, hm⟩ := h
  refine ⟨hf, ?_, by omega, fun hle => ?_⟩
  · show t = s.indentLevel + (t - s.indentLevel)
    omega
  · show min s2.minIndent t = s.minIndent
    rw [hm hle]
    exact min_eq_left (le_trans hle ht)

theorem climb_up {s s2 : St} {k : Int} (h : Climb s s2 k) :
    Climb s (setIndent s2 (s2.indentLevel + 1)) (k + 1) := by
  obtain ⟨hf, hi, hk, hm⟩ := h
  refine ⟨hf, ?_, by omega, fun hle => ?_⟩
  · show s2.indentLevel + 1 = s.indentLevel + (k + 1)
    omega
  · show min s2.minIndent (s2.indentLevel + 1) = s.minIndent
    rw [hm hle]
    refine min_eq_left ?_
    omega

theorem climb_step {s s2 s3 : St} {k : Int} (h : Climb s s2 k)
    (h2 : StPres s2 s3) : Climb s s3 k := by
  obtain ⟨hf, hi, hk, hm⟩ := h
  obtain ⟨hi2, hf2, hm2⟩ := h2
  refine ⟨hf2.trans hf, hi2.trans hi, hk, fun hle => ?_⟩
  have hm1 := hm hle
  rw [hm2 (by rw [hm1, hi]; omega), hm1]

theorem stPres_of_climb {s s2 : St} {k : Int} (h : Climb s s2 k) :
    StPres s (setIndent s2 s.indentLevel) := by
  obtain ⟨hf, hi, hk, hm⟩ := h
  refine ⟨rfl, hf, fun hle => ?_⟩
  show min s2.minIndent s.indentLevel = s.minIndent
  rw [hm hle]
  exact min_eq_left hle

theorem presA_visitCore {cfg : Config} {v : VisitFn} (hv : PresV v)
    {n : CNode} {noType : Bool} {s : St} (hn : noDefs n = true) :
    PresA s (visitCore cfg v n noType s) := by
  cases n
  case Constant ctype value => exact presA_pure
  case ID name => exact presA_pure
  case Pragma str => dsimp only [visitCore]; split <;> exact presA_pure
  case ArrayRef name sub =>
    simp only [noDefs, Bool.and_eq_true] at hn
    dsimp only [visitCore]
    refine presA_bind (presA_parenthIf hv hn.1) (fun a s1 _ => ?_)
    dsimp only
    refine presA_bind (presV_presA hv hn.2 (by simp)) (fun b s2 _ => ?_)
    dsimp only
    exact presA_pure
  case StructRef name reftype field =>
    simp only [noDefs, Bool.and_eq_true] at hn
    dsimp only [visitCore]
    refine presA_bind (presA_parenthIf hv hn.1) (fun a s1 _ => ?_)
    dsimp only
    refine presA_bind (presV_presA hv hn.2 (by simp)) (fun b s2 _ => ?_)
    dsimp only
    exact presA_pure
  case FuncCall name args =>
    simp only [noDefs, Bool.and_eq_true] at hn
    dsimp only [visitCore]
    refine presA_bind (presA_parenthIf hv hn.1) (fun a s1 _ => ?_)
    dsimp only
    refine presA_bind (presA_visitOpt hv hn.2 (by simp)) (fun b s2 _ => ?_)
    dsimp only
    exact presA_pure
  case UnaryOp op e =>
    simp only [noDefs] at hn
    dsimp only [visitCore]
    split
    · refine presA_bind (presV_presA hv hn (by simp)) (fun a s1 _ => ?_)
      dsimp only
      exact presA_pure
    · refine presA_bind (presA_parenthIf hv hn) (fun a s1 _ => ?_)
      dsimp only
      split
      · exact presA_pure
      · split <;> exact presA_pure
  case BinaryOp op l r =>
    simp only [noDefs, Bool.and_eq_true] at hn
    dsimp only [visitCore]
    refine presA_bind (presA_parenthIf hv hn.1) (fun a s1 _ => ?_)
    dsimp only
    refine presA_bind (presA_parenthIf hv hn.2) (fun b s2 _ => ?_)
    dsimp only
    exact presA_pure
  case Assignment op lv rv =>
    simp only [noDefs, Bool.and_eq_true] at hn
    dsimp only [visitCore]
    refine presA_bind (presV_presA hv hn.1 (by simp)) (fun a s1 _ => ?_)
    dsimp only
    refine presA_bind (presV_presA hv hn.2 (by simp)) (fun b s2 _ => ?_)
    dsimp only
    exact presA_pure
  case IdentifierType names => exact presA_pure
  case Decl nm bitsize ini declType =>
    have hd := hn
    simp only [noDefs, Bool.and_eq_true] at hd
    dsimp only [visitCore]
    split
    · split
      · refine presA_bind_pure ?_
        split
        · refine presA_bind (presV_presA hv hd.1.1 (by simp)) (fun b2 s2 _ => ?_)
          dsimp only
          refine presA_bind_pure ?_
          split
          · refine presA_bind (presA_visitExprM hv hd.1.2) (fun e s4 _ => ?_)
            dsimp only
            refine presA_bind_pure ?_
            split
            · split
              · split <;> exact presA_pure
              · exact presA_pure
            · exact presA_pure
          · refine presA_bind_pure ?_
            split
            · split
              · split <;> exact presA_pure
              · exact presA_pure
            · exact presA_pure
        · refine presA_bind_pure ?_
          split
          · refine presA_bind (presA_visitExprM hv hd.1.2) (fun e s4 _ => ?_)
            dsimp only
            refine presA_bind_pure ?_
            split
            · split
              · split <;> exact presA_pure
              · exact presA_pure
            · exact presA_pure
          · refine presA_bind_pure ?_
            split
            · split
              · split <;> exact presA_pure
              · exact presA_pure
            · exact presA_pure
      · exact presA_error
    · refine presA_bind (presA_generateDecl hv hn) (fun a s1 _ => ?_)
      dsimp only
      split
      · refine presA_bind (presV_presA hv hd.1.1 (by simp)) (fun b2 s2 _ => ?_)
        dsimp only
        refine presA_bind_pure ?_
        split
        · refine presA_bind (presA_visitExprM hv hd.1.2) (fun e s4 _ => ?_)
          dsimp only
          refine presA_bind_pure ?_
          split
          · split
            · split <;> exact presA_pure
            · exact presA_pure
          · exact presA_pure
        · refine presA_bind_pure ?_
          split
          · split
            · split <;> exact presA_pure
            · exact presA_pure
          · exact presA_pure
      · refine presA_bind_pure ?_
        split
        · refine presA_bind (presA_visitExprM hv hd.1.2) (fun e s4 _ => ?_)
          dsimp only
          refine presA_bind_pure ?_
          split
          · split
            · split <;> exact presA_pure
            · exact presA_pure
          · exact presA_pure
        · refine presA_bind_pure ?_
          split
          · split
            · split <;> exact presA_pure
            · exact presA_pure
          · exact presA_pure
  case DeclList decls =>
    dsimp only [visitCore]
    split
    · exact presA_error
    · rename_i d0 rest
      simp only [noDefs, noDefsL, Bool.and_eq_true] at hn
      refine presA_bind (presV_presA hv hn.1 (by simp)) (fun a s1 _ => ?_)
      dsimp only
      split
      · exact presA_pure
      · refine presA_bind (presA_joinFold hv hn.2) (fun b s2 _ => ?_)
        dsimp only
        exact presA_pure
  case Typedef ty =>
    simp only [noDefs] at hn
    dsimp only [visitCore]
    exact presA_generateType hv hn rfl
  case Cast e =>
    simp only [noDefs] at hn
    dsimp only [visitCore]
    exact presA_parenthIf hv hn
  case ExprList exprs =>
    simp only [noDefs] at hn
    dsimp only [visitCore]
    refine presA_bind (presA_exprsFold hv hn) (fun a s1 _ => ?_)
    dsimp only
    split
    · exact presA_pure
    · split
      · exact presA_pure
      · exact presA_error
  case InitList exprs =>
    simp only [noDefs] at hn
    dsimp only [visitCore]
    refine presA_bind (presA_exprsFold hv hn) (fun a s1 _ => ?_)
    dsimp only
    exact presA_pure
  case TernaryOp c t f =>
    simp only [noDefs, Bool.and_eq_true] at hn
    dsimp only [visitCore]
    refine presA_bind (presA_visitExprM hv hn.1.2) (fun a s1 _ => ?_)
    dsimp only
    refine presA_bind (presA_visitExprM hv hn.1.1) (fun b s2 _ => ?_)
    dsimp only
    refine presA_bind (presA_visitExprM hv hn.2) (fun c2 s3 _ => ?_)
    dsimp only
    exact presA_pure
  case EllipsisParam => exact presA_pure
  case Break => exact presA_pure
  case Continue => exact presA_pure
  case EmptyStatement => exact presA_pure
  case If condO iftrue iffalse =>
    have hd := hn
    simp only [noDefs, Bool.and_eq_true] at hd
    dsimp only [visitCore]
    split
    · split
      · refine presA_bind (presV_presA hv hd.1.2 (by simp)) (fun a s1 _ => ?_)
        dsimp only
        exact presA_pure
      · split
        · split
          · refine presA_bind (presV_presA hv hd.2 (by simp)) (fun a s1 _ => ?_)
            dsimp only
            exact presA_pure
          · exact presA_pure
        · exact presA_ifRegular hv (by simp [noDefsO, noDefs]) hd.1.2 hd.2
    · exact presA_ifRegular hv hd.1.1 hd.1.2 hd.2
  case While cond stmt =>
    have hd := hn
    simp only [noDefs, Bool.and_eq_true] at hd
    dsimp only [visitCore]
    refine presA_bindE (fun trip htrip => ?_)
    obtain ⟨pre, post, condN⟩ := trip
    obtain ⟨hpre, hpost, hcondN⟩ :=
      extractEffects_noDefs (sizeOf cond) cond pre post condN (le_refl _) hd.1 htrip
    dsimp only
    split
    · refine presA_bind (presV_presA hv hpre (by simp)) (fun a s1 _ => ?_)
      dsimp only
      refine presA_bind_pure ?_
      refine presA_bind (presV_presA hv hcondN (by simp)) (fun b s2 _ => ?_)
      dsimp only
      refine presA_bind (presA_generateStmt hv hd.2) (fun c s3 _ => ?_)
      dsimp only
      split
      · refine presA_bind (presV_presA hv hpost (by simp)) (fun d s4 _ => ?_)
        dsimp only
        refine presA_bind_pure ?_
        exact presA_pure
      · refine presA_bind_pure ?_
        exact presA_pure
    · refine presA_bind_pure ?_
      refine presA_bind (presV_presA hv hcondN (by simp)) (fun b s2 _ => ?_)
      dsimp only
      refine presA_bind (presA_generateStmt hv hd.2) (fun c s3 _ => ?_)
      dsimp only
      split
      · refine presA_bind (presV_presA hv hpost (by simp)) (fun d s4 _ => ?_)
        dsimp only
        refine presA_bind_pure ?_
        exact presA_pure
      · refine presA_bind_pure ?_
        exact presA_pure
  case Case e stmts =>
    simp only [noDefs, Bool.and_eq_true] at hn
    dsimp only [visitCore]
    refine presA_bind (presV_presA hv hn.1 (by simp)) (fun a s1 _ => ?_)
    dsimp only
    refine presA_bind (presA_stmtsFold hv hn.2) (fun b s2 _ => ?_)
    dsimp only
    exact presA_pure
  case Default stmts =>
    simp only [noDefs] at hn
    dsimp only [visitCore]
    refine presA_bind (presA_stmtsFold hv hn) (fun a s1 _ => ?_)
    dsimp only
    exact presA_pure
  case Return e =>
    dsimp only [visitCore]
    split
    · rename_i ex
      simp only [noDefsO, noDefs] at hn
      refine presA_bind (presV_presA hv hn (by simp)) (fun a s1 _ => ?_)
      dsimp only
      exact presA_pure
    · exact presA_pure
  case ParamList params =>
    simp only [noDefs] at hn
    dsimp only [visitCore]
    split
    · split
      · exact presA_pure
      · exact presA_pure
      · refine presA_bind (presA_joinFold hv hn) (fun a s1 _ => ?_)
        dsimp only
        exact presA_pure
      · refine presA_bind (presA_joinFold hv hn) (fun a s1 _ => ?_)
        dsimp only
        exact presA_pure
      · exact presA_error
    · refine presA_bind (presA_joinFold hv hn) (fun a s1 _ => ?_)
      dsimp only
      exact presA_pure
  case Typename nm ty =>
    simp only [noDefs] at hn
    dsimp only [visitCore]
    exact presA_generateType hv hn rfl
  case FuncDecl args ty =>
    dsimp only [visitCore]
    exact presA_generateType hv hn rfl
  case ArrayDecl ty =>
    dsimp only [visitCore]
    exact presA_generateType hv hn rfl
  case TypeDecl nm ty =>
    dsimp only [visitCore]
    exact presA_generateType hv hn rfl
  case PtrDecl ty =>
    dsimp only [visitCore]
    exact presA_generateType hv hn rfl
  case FuncDef decl params body =>
    exact absurd hn (by simp [noDefs])
  case FileAST exts =>
    exact absurd hn (by simp [noDefs])
  case Switch cond body =>
    have hd := hn
    simp only [noDefs, Bool.and_eq_true] at hd
    dsimp only [visitCore]
    refine presA_bindE (fun ft _ => ?_)
    split
    · refine presA_bind (presV_presA hv hd.1 (by simp)) (fun a s1 _ => ?_)
      dsimp only
      intro b s' h
      simp only [Bind.bind, Except.bind] at h
      split at h
      · exact absurd h (by simp)
      · rename_i p heq
        obtain ⟨bodyStr, s2⟩ := p
        dsimp only at h
        split at h
        · cases h
          have hgen := presA_generateStmt hv hd.2 bodyStr s2 heq
          exact stPres_trans (stPres_trans stPres_skip hgen) stPres_skip
        · exact absurd h (by simp)
    · refine presA_bind
        (presA_switchToIfs hv hd.1 (noDefsL_children hd.2)) (fun a s1 _ => ?_)
      dsimp only
      exact presA_pure
  case Compound items =>
    simp only [noDefs] at hn
    dsimp only [visitCore]
    exact presA_compoundBody hv hn
  case For ini condO nxt stmt =>
    have hd := hn
    simp only [noDefs, Bool.and_eq_true] at hd
    dsimp only [visitCore]
    refine presA_bind (presA_forToRange hv hd.1.1.1 hd.1.1.2) (fun ro sA _ => ?_)
    dsimp only
    split
    · refine presA_bind (presA_generateStmt hv hd.2) (fun b sB _ => ?_)
      dsimp only
      exact presA_pure
    · intro a s' h
      simp only [Bind.bind, Except.bind] at h
      split at h
      · rename_i inode hinode
        split at h
        · exact absurd h (by simp)
        · rename_i pr1 heqv
          obtain ⟨initStr, sB⟩ := pr1
          have hini : StPres sA sB := presV_presA hv hd.1.1.1 (by simp) initStr sB heqv
          split at h
          · exact absurd h (by simp)
          · rename_i pr2 heqgen
            obtain ⟨bodyStr, sC⟩ := pr2
            have hgen : StPres sB sC := presA_generateStmt hv hd.2 bodyStr sC heqgen
            split at h
            · rename_i nxnode hnxnode
              split at h
              · exact absurd h (by simp)
              · rename_i pr3 heqnx
                obtain ⟨nxStr, sD⟩ := pr3
                have hnx : StPres (setIndent sC (sC.indentLevel + 1)) sD :=
                  presV_presA hv hd.1.2 (by simp) nxStr sD heqnx
                have climb1 : Climb sB sD 1 :=
                  climb_step (climb_up (climb_of_stPres hgen)) hnx
                split at h
                · rename_i cnode hcnode
                  split at h
                  · exact absurd h (by simp)
                  · rename_i pr4 heqc
                    obtain ⟨cStr, sE⟩ := pr4
                    have hcn : StPres sD sE :=
                      presV_presA hv hd.1.1.2 (by simp) cStr sE heqc
                    cases h
                    exact stPres_trans hini (stPres_of_climb (climb_step climb1 hcn))
                · cases h
                  exact stPres_trans hini (stPres_of_climb climb1)
            · split at h
              · rename_i cnode hcnode
                split at h
                · exact absurd h (by simp)
                · rename_i pr4 heqc
                  obtain ⟨cStr, sE⟩ := pr4
                  have hcn : StPres (setIndent sC (sC.indentLevel + 1)) sE :=
                    presV_presA hv hd.1.1.2 (by simp) cStr sE heqc
                  cases h
                  exact stPres_trans hini
                    (stPres_of_climb (climb_step (climb_up (climb_of_stPres hgen)) hcn))
              · cases h
                exact stPres_trans hini
                  (stPres_of_climb (climb_up (climb_of_stPres hgen)))
      · split at h
        · exact absurd h (by simp)
        · rename_i pr2 heqgen
          obtain ⟨bodyStr, sC⟩ := pr2
          have hgen : StPres sA sC := presA_generateStmt hv hd.2 bodyStr sC heqgen
          split at h
          · rename_i nxnode hnxnode
            split at h
            · exact absurd h (by simp)
            · rename_i pr3 heqnx
              obtain ⟨nxStr, sD⟩ := pr3
              have hnx : StPres (setIndent sC (sC.indentLevel + 1)) sD :=
                presV_presA hv hd.1.2 (by simp) nxStr sD heqnx
              have climb1 : Climb sA sD 1 :=
                climb_step (climb_up (climb_of_stPres hgen)) hnx
              split at h
              · rename_i cnode hcnode
                split at h
                · exact absurd h (by simp)
                · rename_i pr4 heqc
                  obtain ⟨cStr, sE⟩ := pr4
                  have hcn : StPres sD sE :=
                    presV_presA hv hd.1.1.2 (by simp) cStr sE heqc
                  cases h
                  exact stPres_of_climb (climb_step climb1 hcn)
              · cases h
                exact stPres_of_climb climb1
          · split at h
            · rename_i cnode hcnode
              split at h
              · exact absurd h (by simp)
              · rename_i pr4 heqc
                obtain ⟨cStr, sE⟩ := pr4
                have hcn : StPres (setIndent sC (sC.indentLevel + 1)) sE :=
                  presV_presA hv hd.1.1.2 (by simp) cStr sE heqc
                cases h
                exact stPres_of_climb (climb_step (climb_up (climb_of_stPres hgen)) hcn)
            · cases h
              exact stPres_of_climb (climb_up (climb_of_stPres hgen))
  case DoWhile condO stmt =>
    have hd := hn
    simp only [noDefs, Bool.and_eq_true] at hd
    dsimp only [visitCore]
    intro a s' h
    simp only [Bind.bind, Except.bind] at h
    split at h
    · exact absurd h (by simp)
    · rename_i pr heq
      obtain ⟨body, s2⟩ := pr
      have hgen : StPres s s2 := presA_generateStmt hv hd.2 body s2 heq
      split at h
      · rename_i cnode
        split at h
        · exact absurd h (by simp)
        · rename_i pr2 heq2
          obtain ⟨rr, s3⟩ := pr2
          dsimp only at h
          cases h
          have hstep : StPres (setIndent s2 (s.indentLevel + 1)) s3 :=
            presV_presA hv hd.1 (by simp) rr s3 heq2
          have hc1 : Climb s (setIndent s2 (s.indentLevel + 1)) (1 : Int) := by
            have := climb_up_to (climb_of_stPres hgen) (le_of_eq rfl)
            have h2 := climb_up_to (climb_of_stPres hgen)
              (show s.indentLevel ≤ s.indentLevel + 1 from by omega)
            have he : s.indentLevel + 1 - s.indentLevel = (1 : Int) := by omega
            rw [he] at h2
            exact h2
          have hc2 : Climb s s3 1 := climb_step hc1 hstep
          have hc3 : Climb s (setIndent s3 (s3.indentLevel + 1)) (1 + 1) := climb_up hc2
          exact stPres_of_climb hc3
      · dsimp only at h
        cases h
        exact stPres_of_climb (climb_of_stPres hgen)

theorem applyFlag_indentLevel (flag : Option CtxFlag) (s : St) :
    (applyFlag flag s).indentLevel = s.indentLevel := by
  cases flag with
  | none => rfl
  | some f => cases f <;> rfl

theorem applyFlag_minIndent (flag : Option CtxFlag) (s : St) :
    (applyFlag flag s).minIndent = s.minIndent := by
  cases flag with
  | none => rfl
  | some f => cases f <;> rfl

theorem applyFlag_funcBody {flag : Option CtxFlag} (s : St)
    (h : flag ≠ some CtxFlag.FuncBody) :
    (applyFlag flag s).funcBody = s.funcBody := by
  cases flag with
  | none => rfl
  | some f => cases f <;> first | rfl | exact absurd rfl h

theorem clearFlag_indentLevel (flag : Option CtxFlag) (s : St) :
    (clearFlag flag s).indentLevel = s.indentLevel := by
  cases flag with
  | none => rfl
  | some f => cases f <;> rfl

theorem clearFlag_minIndent (flag : Option CtxFlag) (s : St) :
    (clearFlag flag s).minIndent = s.minIndent := by
  cases flag with
  | none => rfl
  | some f => cases f <;> rfl

theorem clearFlag_funcBody {flag : Option CtxFlag} (s : St)
    (h : flag ≠ some CtxFlag.FuncBody) :
    (clearFlag flag s).funcBody = s.funcBody := by
  cases flag with
  | none => rfl
  | some f => cases f <;> first | rfl | exact absurd rfl h

/-- State preservation of the full visitor, at every fuel level: on a
subtree free of `FuncDef`/`FileAST` nodes, a successful `visit` leaves
the indentation level unchanged, leaves the minimum-indent
instrumentation unchanged whenever the entry state was consistent
(`minIndent ≤ indentLevel`), and — except under the `FuncBody` flag —
leaves the function-body state bit unchanged. -/
theorem visit_pres (cfg : Config) : ∀ fuel : Nat, PresV (visit cfg fuel) := by
  intro fuel
  induction fuel with
  | zero => intro n parent flag noType s a s' hn h; exact absurd h (by simp [visit])
  | succ fuel ih =>
    intro n parent flag noType s a s' hn h
    simp only [visit] at h
    split at h
    · cases h
      exact ⟨⟨rfl, fun _ => rfl⟩, fun _ => rfl⟩
    · split at h
      · exact absurd h (by simp)
      · rename_i ret sOut heq
        cases h
        have hst : StPres { applyFlag flag s with parent := parent } sOut :=
          presA_visitCore ih hn a sOut heq
        obtain ⟨hI, hF, hM⟩ := hst
        refine ⟨⟨?_, fun hle => ?_⟩, fun hflag => ?_⟩
        · rw [clearFlag_indentLevel]
          show sOut.indentLevel = s.indentLevel
          rw [hI]
          exact applyFlag_indentLevel flag s
        · rw [clearFlag_minIndent]
          show sOut.minIndent = s.minIndent
          rw [hM ?_]
          · exact applyFlag_minIndent flag s
          · show (applyFlag flag s).minIndent ≤ (applyFlag flag s).indentLevel
            rw [applyFlag_minIndent, applyFlag_indentLevel]
            exact hle
        · rw [clearFlag_funcBody _ hflag]
          show sOut.funcBody = s.funcBody
          rw [hF]
          exact applyFlag_funcBody s hflag

theorem visit_funcdef_zero (cfg : Config) (fuel : Nat)
    (decl : CNode) (params : List CNode) (body : CNode) (parent : Option CNode)
    (flag : Option CtxFlag) (noType : Bool) :
    ∀ (s : St) (out : String) (s' : St),
      noDefs decl = true → noDefsL params = true → noDefs body = true →
      s.indentLevel = 0 → s.minIndent = 0 →
      visit cfg (fuel + 1) (.FuncDef decl params body) parent flag noType s =
        .ok (out, s') →
      s'.indentLevel = 0 ∧ s'.minIndent = 0 := by
  intro s out s' hdecl hparams hbody hind hmin h
  rw [visit_succ] at h
  split at h
  · cases h
    exact ⟨hind, hmin⟩
  · split at h
    · exact absurd h (by simp)
    · rename_i ret sOut heq
      cases h
      rw [clearFlag_indentLevel, clearFlag_minIndent]
      show sOut.indentLevel = 0 ∧ sOut.minIndent = 0
      simp only [visitCore, Bind.bind, Except.bind] at heq
      split at heq
      · exact absurd heq (by simp)
      · rename_i pr1 heqd
        obtain ⟨declStr, s1⟩ := pr1
        obtain ⟨⟨hI1, hM1⟩, _⟩ :=
          visit_pres cfg fuel decl _ (some CtxFlag.FuncProto) false _ declStr s1 hdecl heqd
        have hI1z : s1.indentLevel = 0 := by
          rw [hI1]
          show (applyFlag flag s).indentLevel = 0
          rw [applyFlag_indentLevel]
          exact hind
        have hM1z : s1.minIndent = 0 := by
          rw [hM1 ?_]
          · show (applyFlag flag s).minIndent = 0
            rw [applyFlag_minIndent]
            exact hmin
          · show (applyFlag flag s).minIndent ≤ (applyFlag flag s).indentLevel
            rw [applyFlag_minIndent, applyFlag_indentLevel, hmin, hind]
        split at heq
        · exact absurd heq (by simp)
        · rename_i pr2 heqb
          obtain ⟨bodyStr, s2⟩ := pr2
          obtain ⟨⟨hI2, hM2⟩, _⟩ :=
            visit_pres cfg fuel body _ (some CtxFlag.FuncBody) false _ bodyStr s2 hbody heqb
          have hI2z : s2.indentLevel = 0 := by
            rw [hI2]
            show (setIndent s1 0).indentLevel = 0
            rfl
          have hM2z : s2.minIndent = 0 := by
            rw [hM2 ?_]
            · show min s1.minIndent 0 = 0
              rw [hM1z]
              omega
            · show (setIndent s1 0).minIndent ≤ (setIndent s1 0).indentLevel
              show min s1.minIndent 0 ≤ (0 : Int)
              rw [hM1z]
              omega
          split at heq
          · cases heq
            exact ⟨hI2z, hM2z⟩
          · split at heq
            · exact absurd heq (by simp)
            · rename_i pr3 heqj
              obtain ⟨ps, s3⟩ := pr3
              cases heq
              obtain ⟨hI3, _, hM3⟩ := presA_joinFold (visit_pres cfg fuel) hparams ps s3 heqj
              constructor
              · rw [hI3]
                exact hI2z
              · rw [hM3 (by rw [hM2z, hI2z])]
                exact hM2z

theorem fileFold_zero (cfg : Config) (fuel : Nat) :
    ∀ (exts : List CNode) (nd : CNode) (acc : String) (s : St) (out : String) (s' : St),
      topOk exts = true → s.indentLevel = 0 → s.minIndent = 0 →
      fileFold (visit cfg fuel) exts nd acc s = .ok (out, s') →
      s'.indentLevel = 0 ∧ s'.minIndent = 0 := by
  intro exts
  induction exts with
  | nil =>
    intro nd acc s out s' htop hind hmin h
    simp only [fileFold] at h
    cases h
    exact ⟨hind, hmin⟩
  | cons ext rest ih =>
    intro nd acc s out s' htop hind hmin h
    simp only [topOk, Bool.and_eq_true] at htop
    simp only [fileFold, Bind.bind, Except.bind] at h
    split at h
    · rename_i decl params body
      cases fuel with
      | zero =>
        split at h
        · exact absurd h (by simp)
        · rename_i pr heqv
          exact absurd heqv (by simp [visit])
      | succ fuel =>
        split at h
        · exact absurd h (by simp)
        · rename_i pr heqv
          obtain ⟨r, s1⟩ := pr
          simp only [extOk, Bool.and_eq_true] at htop
          obtain ⟨hI1, hM1⟩ :=
            visit_funcdef_zero cfg fuel decl params body (some nd) none false
              s r s1 htop.1.1.1 htop.1.1.2 htop.1.2 hind hmin heqv
          exact ih nd _ s1 out s' htop.2 hI1 hM1 h
    · rename_i str
      split at h
      · exact absurd h (by simp)
      · rename_i pr heqv
        obtain ⟨r, s1⟩ := pr
        obtain ⟨⟨hI1, hM1⟩, _⟩ :=
          visit_pres cfg fuel _ (some nd) none false s r s1 (by simp [noDefs]) heqv
        refine ih nd _ s1 out s' htop.2 (hI1.trans hind) ?_ h
        rw [hM1 (by rw [hmin, hind]), hmin]
    · exact ih nd acc s out s' htop.2 hind hmin h
    · rename_i nm bs ini dty
      split at h
      · exact ih nd acc s out s' htop.2 hind hmin h
      · split at h
        · exact absurd h (by simp)
        · rename_i pr heqv
          obtain ⟨r, s1⟩ := pr
          obtain ⟨⟨hI1, hM1⟩, _⟩ :=
            visit_pres cfg fuel _ (some nd) none false s r s1 (by
              simp only [extOk] at htop
              exact htop.1) heqv
          refine ih nd _ s1 out s' htop.2 (hI1.trans hind) ?_ h
          rw [hM1 (by rw [hmin, hind]), hmin]
    · exact absurd h (by simp)

/-- Claim C1 counterexample: the claim's simple-node list (constant,
identifier, array reference, struct/member reference, function call) is
incomplete.  A cast used as a left operand is emitted without
parentheses although it is neither in the claim's list nor a binary
operation of any precedence: `(cast)x + y` renders as `x + y`. -/
theorem c1_counterexample :
    renderNode defaultConfig 10 (.BinaryOp .add (.Cast (.ID "x")) (.ID "y")) = .ok "x + y" ∧
    claimSimpleNode (.Cast (.ID "x")) = false ∧
    isBinaryOpNode (.Cast (.ID "x")) = false := ⟨rfl, rfl, rfl⟩

/-- Claim C1, amended: with parenthesis reduction enabled, the left
operand of a binary operation is emitted without parentheses iff it is
a simple node in the AMENDED sense — the claim's list plus cast
expressions and the reduced address-of/dereference unary operators — or
a binary operation of greater-or-equal precedence (strictly greater on
the right operand); the structural equation for the rendering and two
concrete rendered examples witness the precedence behaviour. -/
theorem c1_amended_parenthesization :
    ∀ (cfg : Config) (op : BinOp),
      cfg.reduceParentheses = true →
      (∀ d : CNode,
        (leftParenCond cfg op d = false ↔
          (amendedSimpleNode d = true ∨
            ∃ dop dl dr, d = .BinaryOp dop dl dr ∧ binPrec dop ≥ binPrec op))) ∧
      (∀ d : CNode,
        (rightParenCond cfg op d = false ↔
          (amendedSimpleNode d = true ∨
            ∃ dop dl dr, d = .BinaryOp dop dl dr ∧ binPrec dop > binPrec op))) ∧
      (∀ (k : Nat) (l r : CNode) (p : Option CNode) (s : St),
        s.skip.contains "BinaryOp" = false →
        visit cfg (k + 1) (.BinaryOp op l r) p none false s =
          match parenthIf (visit cfg k) l (some (.BinaryOp op l r))
              (leftParenCond cfg op l) { s with parent := p } with
          | .error err => .error err
          | .ok (ls, s1) =>
            match parenthIf (visit cfg k) r (some (.BinaryOp op l r))
                (rightParenCond cfg op r) s1 with
            | .error err => .error err
            | .ok (rs, s2) =>
              .ok (ls ++ " " ++ binOpPy op ++ " " ++ rs, { s2 with parent := s.parent })) ∧
      renderNode defaultConfig 10
          (.BinaryOp .add (.ID "a") (.BinaryOp .mul (.ID "b") (.ID "c"))) =
        .ok "a + b * c" ∧
      renderNode defaultConfig 10
          (.BinaryOp .mul (.BinaryOp .add (.ID "a") (.ID "b")) (.ID "c")) =
        .ok "(a + b) * c" := by
  intro cfg op hred
  refine ⟨?_, ?_, ?_, rfl, rfl⟩
  · intro d
    cases d <;>
      simp [leftParenCond, amendedSimpleNode, isSimpleNode, hred, ge_iff_le,
        decide_eq_true_eq] <;> tauto
  · intro d
    cases d <;>
      simp [rightParenCond, amendedSimpleNode, isSimpleNode, hred,
        decide_eq_true_eq] <;> tauto
  · intro k l r p s h
    rw [visit_succ]
    simp only [clsName, h, Bool.false_eq_true, if_false, applyFlag, visitCore]
    cases hl : parenthIf (visit cfg k) l (some (.BinaryOp op l r))
        (leftParenCond cfg op l) { s with parent := p } with
    | error err => simp [hl, Except.bind, Bind.bind]
    | ok pr =>
      cases pr with
      | mk ls s1 =>
        simp only [hl, Except.bind, Bind.bind]
        cases hr : parenthIf (visit cfg k) r (some (.BinaryOp op l r))
            (rightParenCond cfg op r) s1 with
        | error err => simp [hr]
        | ok pr2 => cases pr2 with | mk rs s2 => simp [hr, clearFlag]

/-- Claim C2.  The claim asserts that every canonicalized for-loop's
emitted range iteration reproduces the original value sequence, in
particular that `for (i = 5; i >= 1; i--)` yields `5,4,3,2,1`.  The
code emits `range(5, 0)` with no step argument: `_for_to_range`
adjusts the inclusive bound by the step but never passes the step (or
direction) to `range`, whose default step is `+1`, so the emitted loop
iterates zero times while the C loop iterates five times.  The
ascending conjuncts show the claim's other example does hold, so the
defect is specifically the missing step argument for decrementing
loops (the code marks direction handling with a TODO). -/
theorem c2_for_to_range_descending_bug :
    renderNode defaultConfig 100 forDescExample =
      .ok "for i in range(5, 0):\n    a = i" ∧
    pyRange 5 0 = [] ∧
    cForSeq 100 5 (fun i => decide (1 ≤ i)) (-1) = [5, 4, 3, 2, 1] ∧
    pyRange 5 0 ≠ cForSeq 100 5 (fun i => decide (1 ≤ i)) (-1) ∧
    renderNode defaultConfig 100 forAscExample =
      .ok "for i in range(0, 5):\n    a = i" ∧
    pyRange 0 5 = [0, 1, 2, 3, 4] ∧
    cForSeq 100 0 (fun i => decide (i < 5)) 1 = [0, 1, 2, 3, 4] := by
  refine ⟨rfl, by decide, by decide, by decide, rfl, by decide, by decide⟩

/-- Claim C3.  The all-break half of the claim holds (first conjunct:
one match arm per label, breaks suppressed).  The fallthrough half
fails: in `_switch_to_ifs` the `enumerate` of the emission loop reuses
the surrounding offset counter `idx`, so after the first emitted
region the counter no longer equals `len(shared)`; the arm for
`case 3` is emitted with the shared block starting at the corrupted
offset 1 (`b = 2; c = 3`) instead of at case 3's own offset 2
(`c = 3`).  The third conjunct states the divergence from the
claim-predicted output explicitly. -/
theorem c3_switch_lowering_offset_bug :
    renderNode defaultConfig 200 switchAllBreakExample =
      .ok ("match x:\n    case 1:\n        a = 1\n    case 2:\n        b = 2"
            ++ "\n    case _:\n        c = 3") ∧
    renderNode defaultConfig 200 switchFallExample =
      .ok ("if x == 1:\n    a = 1\n    b = 2\nelif x == 2:\n    b = 2"
            ++ "\nif x == 3:\n    b = 2\n    c = 3") ∧
    renderNode defaultConfig 200 switchFallExample ≠
      .ok ("if x == 1:\n    a = 1\n    b = 2\nelif x == 2:\n    b = 2"
            ++ "\nif x == 3:\n    c = 3") := by
  refine ⟨rfl, rfl, ?_⟩
  intro h
  rw [show renderNode defaultConfig 200 switchFallExample =
        Except.ok ("if x == 1:\n    a = 1\n    b = 2\nelif x == 2:\n    b = 2"
          ++ "\nif x == 3:\n    b = 2\n    c = 3") from rfl] at h
  exact absurd (Except.ok.inj h) (by decide)

/-- Claim C4.  The claim asserts that a conditional break inside a
fallthrough case makes generation raise a fatal unsupported-construct
error with no output.  The code never checks for conditional breaks
(both `_has_fallthrough` and `_switch_to_ifs` carry TODOs saying so):
on the example the generation returns normally (`Except.ok`, no raised
error) and the emitted if/elif chain contains the conditional `break`
mistranslated into the guard body. -/
theorem c4_conditional_break_not_rejected :
    renderNode defaultConfig 200 switchCondBreakExample =
      .ok ("if x == 1:\n    if y:\n        break\n    a = 1\n    b = 2"
            ++ "\nelif x == 2:\n    b = 2") := rfl

/-- Claim C5: an ordinary local declaration without an initializer —
a named `Decl` of `TypeDecl`/`IdentifierType` shape, visited with
`no_type = False` so that its text is produced by
`_generate_decl`/`_generate_type` — renders, when the funcBody state
bit is set, as empty text in default mode
(`keep_empty_declarations = False`), and as the declared name bound to
the explicit placeholder `= None` when the defensive
keep-empty-declarations mode is enabled (without type hints); in both
modes the generator state is returned unchanged.  The name and the
identifier-type word list are arbitrary, as is the parent node (any
node other than a ParamList/FuncDef, whose branches of
`_generate_type` render parameters and return types rather than
locals). -/
theorem c5_uninitialized_local_declaration (cfg : Config) (fuel : Nat)
    (nm : Option String) (name : String) (ids : List String)
    (parent : Option CNode) (s : St)
    (hskip : s.skip = []) (hfb : s.funcBody = true)
    (hname : (name != "") = true)
    (hpar : ∀ ps, parent = some ps →
      (match ps with
       | .ParamList _ => False
       | .FuncDef _ _ _ => False
       | _ => True)) :
    (cfg.keepEmptyDeclarations = false →
      visit cfg (fuel + 2)
          (.Decl nm none none (.TypeDecl (some name) (.IdentifierType ids)))
          parent none false s = .ok ("", s)) ∧
    (cfg.keepEmptyDeclarations = true → cfg.typeHintDeclarations = false →
      visit cfg (fuel + 2)
          (.Decl nm none none (.TypeDecl (some name) (.IdentifierType ids)))
          parent none false s = .ok (name ++ " = None", s)) := by
  obtain ⟨rp, uth, ked, thd⟩ := cfg
  obtain ⟨fp, fb, fa, par, sk, il, mi⟩ := s
  dsimp only at hskip hfb
  subst hskip
  subst hfb
  constructor
  · intro hke
    dsimp only at hke
    subst hke
    cases parent with
    | none =>
      simp only [visit, visitCore, generateDecl, generateType, genTypeMods,
        Bind.bind, Except.bind, Option.getD, applyFlag, clearFlag,
        List.contains, List.elem_nil, Bool.false_eq_true, if_false, if_true,
        reduceIte, hname]
      rfl
    | some ps =>
      cases ps <;>
        first
        | exact (hpar _ rfl).elim
        | (simp only [visit, visitCore, generateDecl, generateType, genTypeMods,
            Bind.bind, Except.bind, Option.getD, applyFlag, clearFlag,
            List.contains, List.elem_nil, Bool.false_eq_true, if_false, if_true,
            reduceIte, hname]
           rfl)
  · intro hke hth
    dsimp only at hke hth
    subst hke
    subst hth
    cases parent with
    | none =>
      simp only [visit, visitCore, generateDecl, generateType, genTypeMods,
        Bind.bind, Except.bind, Option.getD, applyFlag, clearFlag,
        List.contains, List.elem_nil, Bool.false_eq_true, if_false, if_true,
        reduceIte, hname]
      rfl
    | some ps =>
      cases ps <;>
        first
        | exact (hpar _ rfl).elim
        | (simp only [visit, visitCore, generateDecl, generateType, genTypeMods,
            Bind.bind, Except.bind, Option.getD, applyFlag, clearFlag,
            List.contains, List.elem_nil, Bool.false_eq_true, if_false, if_true,
            reduceIte, hname]
           rfl)

theorem c5_uninitialized_local_declaration_witness :
    ({ initSt with funcBody := true } : St).skip = [] ∧
    ({ initSt with funcBody := true } : St).funcBody = true ∧
    ("x" != "") = true ∧
    defaultConfig.keepEmptyDeclarations = false ∧
    visit defaultConfig 2
        (.Decl (some "x") none none (.TypeDecl (some "x") (.IdentifierType ["int"])))
        (some (.Compound [])) none false { initSt with funcBody := true } =
      .ok ("", { initSt with funcBody := true }) ∧
    visit { defaultConfig with keepEmptyDeclarations := true } 2
        (.Decl (some "x") none none (.TypeDecl (some "x") (.IdentifierType ["int"])))
        (some (.Compound [])) none false { initSt with funcBody := true } =
      .ok ("x = None", { initSt with funcBody := true }) :=
  ⟨rfl, rfl, rfl, rfl,
   (c5_uninitialized_local_declaration defaultConfig 0 (some "x") "x" ["int"]
      (some (.Compound [])) { initSt with funcBody := true } rfl rfl rfl
      (fun ps hps => by cases hps; trivial)).1 rfl,
   (c5_uninitialized_local_declaration
      { defaultConfig with keepEmptyDeclarations := true } 0 (some "x") "x" ["int"]
      (some (.Compound [])) { initSt with funcBody := true } rfl rfl rfl
      (fun ps hps => by cases hps; trivial)).2 rfl rfl⟩

/-- Claim C7: on definition-free subtrees (the shape of every nested
visit the engine performs) a successful visit restores the indentation
level to its pre-call value and preserves the minimum-indentation
instrumentation, so the indentation depth never becomes negative during
the visit when it starts consistent and non-negative; and a whole-file
generation pass starting from a fresh generator finishes with
indentation level 0 and minimum-ever-assigned indentation 0 (never
negative at any point of the pass). -/
theorem c7_indentation_restored_and_never_negative :
    (∀ (cfg : Config) (fuel : Nat) (n : CNode) (parent : Option CNode)
       (flag : Option CtxFlag) (noType : Bool) (s : St) (out : String) (s' : St),
       noDefs n = true → 0 ≤ s.minIndent → s.minIndent ≤ s.indentLevel →
       visit cfg fuel n parent flag noType s = .ok (out, s') →
       s'.indentLevel = s.indentLevel ∧ s'.minIndent = s.minIndent ∧ 0 ≤ s'.minIndent) ∧
    (∀ (cfg : Config) (fuel : Nat) (exts : List CNode) (out : String) (s' : St),
       topOk exts = true →
       visit cfg (fuel + 1) (.FileAST exts) none none false initSt = .ok (out, s') →
       s'.indentLevel = 0 ∧ s'.minIndent = 0) := by
  constructor
  · intro cfg fuel n parent flag noType s out s' hn h0 hle h
    obtain ⟨⟨hI, hM⟩, _⟩ := visit_pres cfg fuel n parent flag noType s out s' hn h
    refine ⟨hI, hM hle, ?_⟩
    rw [hM hle]
    exact h0
  · intro cfg fuel exts out s' htop h
    rw [visit_succ] at h
    split at h
    · rename_i hsk
      exact absurd hsk (by simp [initSt])
    · split at h
      · exact absurd h (by simp)
      · rename_i ret sOut heq
        cases h
        rw [clearFlag_indentLevel, clearFlag_minIndent]
        show sOut.indentLevel = 0 ∧ sOut.minIndent = 0
        simp only [visitCore] at heq
        exact fileFold_zero cfg fuel exts _ "" _ out sOut htop rfl rfl heq

theorem c7_indentation_restored_and_never_negative_witness :
    (topOk [funcdefExample] = true ∧
     visit defaultConfig 8 (.FileAST [funcdefExample]) none none false initSt =
       .ok ("def f():\n    return 0\n\n\n", initSt) ∧
     initSt.indentLevel = 0 ∧ initSt.minIndent = 0) ∧
    (noDefs (.Compound [.Return none]) = true ∧
     visit defaultConfig 3 (.Compound [.Return none]) none none false
         { initSt with indentLevel := 2 } =
       .ok ("            return\n", { initSt with indentLevel := 2 }) ∧
     ({ initSt with indentLevel := 2 } : St).indentLevel = 2 ∧
     ({ initSt with indentLevel := 2 } : St).minIndent = 0) :=
  ⟨⟨rfl, by rfl,
    c7_indentation_restored_and_never_negative.2 defaultConfig 7 [funcdefExample]
      "def f():\n    return 0\n\n\n" initSt rfl (by rfl)⟩,
   ⟨rfl, by rfl,
    (c7_indentation_restored_and_never_negative.1 defaultConfig 3 (.Compound [.Return none])
       none none false { initSt with indentLevel := 2 } "            return\n"
       { initSt with indentLevel := 2 } rfl (by decide) (by decide) (by rfl)).1,
    (c7_indentation_restored_and_never_negative.1 defaultConfig 3 (.Compound [.Return none])
       none none false { initSt with indentLevel := 2 } "            return\n"
       { initSt with indentLevel := 2 } rfl (by decide) (by decide) (by rfl)).2.1⟩⟩

/-- Claim C8: an `if` with integer constant condition `1` renders as
exactly the then-branch's rendering (plus the statement newline), one
with constant `0` renders as the else-branch's rendering when present,
and as empty text when absent — no `if`/`else` structure is emitted. -/
theorem c8_if_constant_reduction :
    ∀ (cfg : Config) (k : Nat) (t : CNode) (e : Option CNode) (p : Option CNode) (s : St),
      s.skip.contains "If" = false →
      (visit cfg (k + 1) (.If (some (.Constant "int" "1")) t e) p none false s =
        match visit cfg k t (some (.If (some (.Constant "int" "1")) t e)) none false
            { s with parent := p } with
        | .error err => .error err
        | .ok (r, s1) => .ok (r ++ "\n", { s1 with parent := s.parent })) ∧
      (∀ eb, visit cfg (k + 1) (.If (some (.Constant "int" "0")) t (some eb)) p none false s =
        match visit cfg k eb (some (.If (some (.Constant "int" "0")) t (some eb))) none false
            { s with parent := p } with
        | .error err => .error err
        | .ok (r, s1) => .ok (r ++ "\n", { s1 with parent := s.parent })) ∧
      (visit cfg (k + 1) (.If (some (.Constant "int" "0")) t none) p none false s =
        .ok ("", s)) := by
  intro cfg k t e p s h
  refine ⟨?_, ?_, ?_⟩
  · rw [visit_succ]
    simp only [clsName, h, Bool.false_eq_true, if_false, applyFlag, visitCore]
    cases hv : visit cfg k t (some (.If (some (.Constant "int" "1")) t e)) none false
        { s with parent := p } with
    | error err => simp [hv, Except.bind, Bind.bind, clearFlag]
    | ok pr => cases pr with | mk r s1 => simp [hv, Except.bind, Bind.bind, clearFlag]
  · intro eb
    rw [visit_succ]
    simp only [clsName, h, Bool.false_eq_true, if_false, applyFlag, visitCore]
    cases hv : visit cfg k eb (some (.If (some (.Constant "int" "0")) t (some eb))) none false
        { s with parent := p } with
    | error err => simp [hv, Except.bind, Bind.bind, clearFlag]
    | ok pr => cases pr with | mk r s1 => simp [hv, Except.bind, Bind.bind, clearFlag]
  · rw [visit_succ]
    simp only [clsName, h, Bool.false_eq_true, if_false, applyFlag, visitCore]
    rfl

/-- Claim C10: cast expressions and the address-of/dereference unary
operators are erased — each renders exactly as its operand rendered
through `_parenthesize_unless_simple`, and all three node shapes count
as simple nodes for the enclosing expression's parenthesization. -/
theorem c10_cast_and_pointer_ops_reduced :
    ∀ (cfg : Config) (k : Nat) (e : CNode) (p : Option CNode) (s : St),
      isSimpleNode (.Cast e) = true ∧
      isSimpleNode (.UnaryOp "&" e) = true ∧
      isSimpleNode (.UnaryOp "*" e) = true ∧
      (s.skip.contains "Cast" = false →
        visit cfg (k + 1) (.Cast e) p none false s =
          match parenthesizeUnlessSimple (visit cfg k) e (some (.Cast e))
              { s with parent := p } with
          | .error err => .error err
          | .ok (r, s1) => .ok (r, { s1 with parent := s.parent })) ∧
      (s.skip.contains "UnaryOp" = false →
        visit cfg (k + 1) (.UnaryOp "&" e) p none false s =
          match parenthesizeUnlessSimple (visit cfg k) e (some (.UnaryOp "&" e))
              { s with parent := p } with
          | .error err => .error err
          | .ok (r, s1) => .ok (r, { s1 with parent := s.parent })) ∧
      (s.skip.contains "UnaryOp" = false →
        visit cfg (k + 1) (.UnaryOp "*" e) p none false s =
          match parenthesizeUnlessSimple (visit cfg k) e (some (.UnaryOp "*" e))
              { s with parent := p } with
          | .error err => .error err
          | .ok (r, s1) => .ok (r, { s1 with parent := s.parent })) := by
  intro cfg k e p s
  refine ⟨rfl, rfl, rfl, ?_, ?_, ?_⟩
  · intro h
    rw [visit_succ]
    simp only [clsName, h, Bool.false_eq_true, if_false, applyFlag, visitCore,
      parenthesizeUnlessSimple]
    cases hv : parenthIf (visit cfg k) e (some (.Cast e)) (!isSimpleNode e)
        { s with parent := p } with
    | error err => simp [hv, clearFlag]
    | ok pr => cases pr with | mk r s1 => simp [hv, clearFlag]
  · intro h
    rw [visit_succ]
    simp only [clsName, h, Bool.false_eq_true, if_false, applyFlag, visitCore,
      parenthesizeUnlessSimple]
    cases hv : parenthIf (visit cfg k) e (some (.UnaryOp "&" e)) (!isSimpleNode e)
        { s with parent := p } with
    | error err => simp [hv, Except.bind, Bind.bind, clearFlag]
    | ok pr =>
      cases pr with
      | mk r s1 =>
        simp only [hv, Except.bind, Bind.bind, clearFlag]
        first
        | rfl
        | simp [unaryOpPy]
  · intro h
    rw [visit_succ]
    simp only [clsName, h, Bool.false_eq_true, if_false, applyFlag, visitCore,
      parenthesizeUnlessSimple]
    cases hv : parenthIf (visit cfg k) e (some (.UnaryOp "*" e)) (!isSimpleNode e)
        { s with parent := p } with
    | error err => simp [hv, Except.bind, Bind.bind, clearFlag]
    | ok pr =>
      cases pr with
      | mk r s1 =>
        simp only [hv, Except.bind, Bind.bind, clearFlag]
        first
        | rfl
        | simp [unaryOpPy]

/-- Claim C9: an expression list (comma operator) whose parent is not a
function call renders as only its last sub-expression's rendering — the
fold still visits every sub-expression (for side conditions on the
state), but the returned text is the last element of the collected
renderings. -/
theorem c9_expr_list_keeps_last :
    ∀ (cfg : Config) (k : Nat) (exprs : List CNode) (p : Option CNode) (s : St)
      (out : String) (s' : St),
      (∀ f a, p ≠ some (.FuncCall f a)) →
      s.skip.contains "ExprList" = false →
      visit cfg (k + 1) (.ExprList exprs) p none false s = .ok (out, s') →
      ∃ strs s1,
        exprsFold (visit cfg k) exprs (some (.ExprList exprs)) { s with parent := p } =
          .ok (strs, s1) ∧
        strs.getLast? = some out ∧
        s' = { s1 with parent := s.parent } := by
  intro cfg k exprs p s out s' hp hskip hv
  rw [visit_succ] at hv
  simp only [clsName, hskip, Bool.false_eq_true, if_false, applyFlag, visitCore] at hv
  cases hf : exprsFold (visit cfg k) exprs (some (.ExprList exprs)) { s with parent := p } with
  | error e =>
    rw [hf] at hv
    simp [Except.bind, Bind.bind] at hv
  | ok pr =>
    cases pr with
    | mk strs s1 =>
      rw [hf] at hv
      simp only [Except.bind, Bind.bind] at hv
      have hpar : s1.parent = p := exprsFold_parent hf
      rw [hpar] at hv
      split at hv
      · exact Except.noConfusion hv
      · rename_i ret sOut heq
        cases hv
        split at heq
        · exact (hp _ _ rfl).elim
        · split at heq
          · rename_i last hgl
            cases heq
            exact ⟨strs, s1, rfl, hgl, rfl⟩
          · exact Except.noConfusion heq

theorem c1_amended_parenthesization_witness :
    defaultConfig.reduceParentheses = true ∧
    renderNode defaultConfig 10
        (.BinaryOp .add (.ID "a") (.BinaryOp .mul (.ID "b") (.ID "c"))) =
      .ok "a + b * c" :=
  ⟨rfl, (c1_amended_parenthesization defaultConfig .add rfl).2.2.2.1⟩

theorem c8_if_constant_reduction_witness :
    initSt.skip.contains "If" = false ∧
    visit defaultConfig 3 (.If (some (.Constant "int" "1")) (.ID "a") none)
        none none false initSt = .ok ("a\n", initSt) :=
  ⟨rfl,
   ((c8_if_constant_reduction defaultConfig 2 (.ID "a") none none initSt rfl).1).trans
     (by rfl)⟩

theorem c10_cast_and_pointer_ops_reduced_witness :
    initSt.skip.contains "Cast" = false ∧
    visit defaultConfig 3 (.Cast (.ID "x")) none none false initSt =
      .ok ("x", initSt) :=
  ⟨rfl,
   ((c10_cast_and_pointer_ops_reduced defaultConfig 2 (.ID "x") none initSt).2.2.2.1
      rfl).trans (by rfl)⟩

theorem c9_expr_list_keeps_last_witness :
    (∀ f a, (none : Option CNode) ≠ some (.FuncCall f a)) ∧
    initSt.skip.contains "ExprList" = false ∧
    ∃ strs s1,
      exprsFold (visit defaultConfig 3) [.ID "a", .ID "b"]
          (some (.ExprList [.ID "a", .ID "b"])) { initSt with parent := none } =
        .ok (strs, s1) ∧
      strs.getLast? = some "b" ∧
      initSt = { s1 with parent := initSt.parent } :=
  ⟨fun f a h => Option.noConfusion h, rfl,
   c9_expr_list_keeps_last defaultConfig 3 [.ID "a", .ID "b"] none initSt "b" initSt
     (fun f a h => Option.noConfusion h) rfl (by rfl)⟩



theorem tsPres_refl (s : TsSt) : TsPres s s := ⟨rfl, [], by simp⟩

theorem tsPres_trans {a b c : TsSt} (h1 : TsPres a b) (h2 : TsPres b c) :
    TsPres a c := by
  obtain ⟨n1, t1, i1⟩ := h1
  obtain ⟨n2, t2, i2⟩ := h2
  exact ⟨n2.trans n1, t1 ++ t2, by rw [i2, i1, List.append_assoc]⟩

theorem flush_imports (s : TsSt) : (flush s).imports = s.imports := by
  unfold flush; split <;> rfl

theorem flush_newTypes (s : TsSt) : (flush s).newTypes = s.newTypes := by
  unfold flush; split <;> rfl

theorem tsPres_flush (s : TsSt) : TsPres s (flush s) :=
  ⟨flush_newTypes s, [], by rw [flush_imports]; simp⟩

theorem tsPres_addLine (s : TsSt) (line : String) (ind : Nat) :
    TsPres s (addLine s line ind) :=
  ⟨flush_newTypes s, [], by
    show ((flush s).imports).map Prod.fst = _
    rw [flush_imports]; simp⟩

theorem tsPres_insertLine (s : TsSt) (lineNo : Nat) (line : String) (ind : Nat) :
    TsPres s (insertLine s lineNo line ind) := ⟨rfl, [], by simp [insertLine]⟩

theorem tsPres_add (s : TsSt) (str : String) (ctx : TsCtx) :
    TsPres s (add s str ctx) := ⟨rfl, [], by simp [add]⟩

theorem tsPres_addEmpty (s : TsSt) (count : Nat) :
    TsPres s (addEmpty s count) :=
  ⟨flush_newTypes s, [], by
    show ((flush s).imports).map Prod.fst = _
    rw [flush_imports]; simp⟩

theorem tsPres_addImport (s : TsSt) (f imp : String) :
    TsPres s (addImport s f imp) := by
  unfold addImport
  split
  · refine ⟨rfl, [], ?_⟩
    show (s.imports.map _).map Prod.fst = s.imports.map Prod.fst ++ []
    rw [List.map_map, List.append_nil]
    refine List.map_congr_left (fun p _ => ?_)
    show (if p.1 == f then (p.1, _) else p).1 = p.1
    split <;> rfl
  · exact ⟨rfl, [f], by simp⟩

theorem tpresA_error {s : TsSt} {e : String} : TPresA s (.error e) :=
  fun _ _ h => Except.noConfusion h

theorem tpresA_pure {s : TsSt} {ctx : TsCtx} : TPresA s (.ok (s, ctx)) := by
  intro s2 ctx2 h
  cases h
  exact tsPres_refl s

theorem tpresA_pure_of {s s1 : TsSt} {ctx : TsCtx} (h : TsPres s s1) :
    TPresA s (.ok (s1, ctx)) := by
  intro s2 ctx2 hh
  cases hh
  exact h

theorem tpresA_of_pres {s s1 : TsSt} {r : Except String (TsSt × TsCtx)}
    (hp : TsPres s s1) (h : TPresA s1 r) : TPresA s r :=
  fun s2 ctx2 he => tsPres_trans hp (h s2 ctx2 he)

theorem tpresA_bind {s : TsSt} {r : Except String (TsSt × TsCtx)}
    {f : TsSt × TsCtx → Except String (TsSt × TsCtx)}
    (h1 : TPresA s r)
    (h2 : ∀ s1 c1, r = .ok (s1, c1) → TPresA s1 (f (s1, c1))) :
    TPresA s (r >>= f) := by
  intro s2 ctx2 hb
  cases r with
  | error e => exact Except.noConfusion hb
  | ok pr =>
    obtain ⟨s1, c1⟩ := pr
    exact tsPres_trans (h1 s1 c1 rfl) (h2 s1 c1 rfl s2 ctx2 hb)

theorem tpresA_vn {vn : TsVisit} (hv : TsPresV vn) {n s ctx} :
    TPresA s (vn n s ctx) := fun s2 ctx2 h => hv n s ctx s2 ctx2 h

theorem tpresA_tsStmts {vn : TsVisit} (hv : TsPresV vn) :
    ∀ {items : List TsNode} {s ctx}, TPresA s (tsStmts vn items s ctx) := by
  intro items
  induction items with
  | nil => intro s ctx; exact tpresA_pure
  | cons x rest ih =>
    intro s ctx
    refine tpresA_bind (tpresA_vn hv) (fun s1 c1 _ => ?_)
    dsimp only
    exact ih
  -- the pair-matching continuation reduces to the tail fold

theorem tpresA_tsSepFold {vn : TsVisit} (hv : TsPresV vn) {sep : String} :
    ∀ {items : List TsNode} {idx s ctx}, TPresA s (tsSepFold vn sep items idx s ctx) := by
  intro items
  induction items with
  | nil => intro idx s ctx; exact tpresA_pure
  | cons x rest ih =>
    intro idx s ctx
    unfold tsSepFold
    split
    · refine tpresA_of_pres (tsPres_add s sep ctx) ?_
      refine tpresA_bind (tpresA_vn hv) (fun s1 c1 _ => ?_)
      dsimp only
      exact ih
    · refine tpresA_bind (tpresA_vn hv) (fun s1 c1 _ => ?_)
      dsimp only
      exact ih

theorem tpresA_tsCommaParams {vn : TsVisit} (hv : TsPresV vn) :
    ∀ {items : List TsNode} {s ctx}, TPresA s (tsCommaParams vn items s ctx) := by
  intro items
  induction items with
  | nil => intro s ctx; exact tpresA_pure
  | cons x rest ih =>
    intro s ctx
    refine tpresA_of_pres (tsPres_add s ", " ctx) ?_
    refine tpresA_bind (tpresA_vn hv) (fun s1 c1 _ => ?_)
    dsimp only
    exact ih

theorem tpresA_tsFnTypeParams {vn : TsVisit} (hv : TsPresV vn) :
    ∀ {items : List TsNode} {idx s ctx}, TPresA s (tsFnTypeParams vn items idx s ctx) := by
  intro items
  induction items with
  | nil => intro idx s ctx; exact tpresA_pure
  | cons x rest ih =>
    intro idx s ctx
    unfold tsFnTypeParams
    split
    · refine tpresA_of_pres (tsPres_add s ", " ctx) ?_
      refine tpresA_bind (tpresA_vn hv) (fun s1 c1 _ => ?_)
      dsimp only
      exact ih
    · refine tpresA_bind (tpresA_vn hv) (fun s1 c1 _ => ?_)
      dsimp only
      exact ih

theorem tsPres_decorateLines (mname : String) :
    ∀ (lns : List Nat) (s : TsSt) (idx offset ind : Nat),
      TsPres s (decorateLines s mname lns idx offset ind).1 := by
  intro lns
  induction lns with
  | nil => intro s idx offset ind; exact tsPres_refl s
  | cons ln rest ih =>
    intro s idx offset ind
    exact tsPres_trans (tsPres_insertLine s _ _ _) (ih _ _ _ _)

theorem tsPres_decorateMethods :
    ∀ (ms : List (String × List Nat)) (s : TsSt) (offset ind : Nat),
      TsPres s (decorateMethods s ms offset ind).1 := by
  intro ms
  induction ms with
  | nil => intro s offset ind; exact tsPres_refl s
  | cons p rest ih =>
    intro s offset ind
    obtain ⟨mname, lineNums⟩ := p
    unfold decorateMethods
    split
    · refine tsPres_trans (tsPres_addImport s "functools" "singledispatchmethod") ?_
      refine tsPres_trans (tsPres_decorateLines mname lineNums _ 0 offset ind) ?_
      exact ih _ _ _
    · exact ih s offset ind

theorem tpresA_classLike {vn : TsVisit} (hv : TsPresV vn)
    {isInterface : Bool} {name : TsName} {hs members : List TsNode} {s : TsSt} {ctx : TsCtx} :
    TPresA s (classLike vn isInterface name hs members s ctx) := by
  unfold classLike
  refine tpresA_of_pres (tsPres_trans (tsPres_addEmpty s 2)
    (tsPres_trans (tsPres_addLine _ "@external" ctx.indent)
      (tsPres_add _ ("class " ++ getName name) ctx))) ?_
  split
  · split
    · refine tpresA_of_pres (tsPres_add _ "(" ctx) ?_
      refine tpresA_bind (tpresA_tsStmts hv) (fun s1 c1 _ => ?_)
      dsimp only
      refine tpresA_bind (tpresA_pure_of (tsPres_add s1 ")" c1)) (fun s2 c2 _ => ?_)
      dsimp only
      refine tpresA_of_pres (tsPres_add s2 ":" c2) ?_
      refine tpresA_bind (tpresA_tsStmts hv) (fun s3 c3 _ => ?_)
      dsimp only
      split
      · rename_i ms hms
        exact tpresA_pure_of (tsPres_decorateMethods ms s3 0 c3.indent)
      · exact tpresA_error
    · split
      · refine tpresA_bind (tpresA_pure_of (tsPres_trans
          (tsPres_addImport _ "typings" "Protocol") (tsPres_add _ "(Protocol)" ctx)))
          (fun s2 c2 _ => ?_)
        dsimp only
        refine tpresA_of_pres (tsPres_add s2 ":" c2) ?_
        refine tpresA_bind (tpresA_tsStmts hv) (fun s3 c3 _ => ?_)
        dsimp only
        split
        · rename_i ms hms
          exact tpresA_pure_of (tsPres_decorateMethods ms s3 0 c3.indent)
        · exact tpresA_error
      · refine tpresA_bind tpresA_pure (fun s2 c2 _ => ?_)
        dsimp only
        refine tpresA_of_pres (tsPres_add s2 ":" c2) ?_
        refine tpresA_bind (tpresA_tsStmts hv) (fun s3 c3 _ => ?_)
        dsimp only
        split
        · rename_i ms hms
          exact tpresA_pure_of (tsPres_decorateMethods ms s3 0 c3.indent)
        · exact tpresA_error
  · split
    · refine tpresA_of_pres (tsPres_add _ "(" ctx) ?_
      refine tpresA_bind (tpresA_tsStmts hv) (fun s1 c1 _ => ?_)
      dsimp only
      refine tpresA_bind (tpresA_pure_of (tsPres_add s1 ")" c1)) (fun s2 c2 _ => ?_)
      dsimp only
      refine tpresA_of_pres (tsPres_add s2 ":" c2) ?_
      exact tpresA_pure_of (tsPres_addLine _ "..." _)
    · split
      · refine tpresA_bind (tpresA_pure_of (tsPres_trans
          (tsPres_addImport _ "typings" "Protocol") (tsPres_add _ "(Protocol)" ctx)))
          (fun s2 c2 _ => ?_)
        dsimp only
        refine tpresA_of_pres (tsPres_add s2 ":" c2) ?_
        exact tpresA_pure_of (tsPres_addLine _ "..." _)
      · refine tpresA_bind tpresA_pure (fun s2 c2 _ => ?_)
        dsimp only
        refine tpresA_of_pres (tsPres_add s2 ":" c2) ?_
        exact tpresA_pure_of (tsPres_addLine _ "..." _)

theorem tpresA_propLike {vn : TsVisit} (hv : TsPresV vn)
    {name : TsName} {modifiers : List String} {ty : TsNode} {s : TsSt} {ctx : TsCtx} :
    TPresA s (propLike vn name modifiers ty s ctx) := by
  unfold propLike
  refine tpresA_of_pres (tsPres_addEmpty s 1) ?_
  split
  · by_cases hal : (toPython (getName name) != getName name) = true
    · simp only [if_pos hal]
      refine tpresA_of_pres (tsPres_trans (tsPres_addLine _ "@property" ctx.indent)
        (tsPres_trans
          (tsPres_addLine _ ("@alias(" ++ sq ++ getName name ++ sq ++ ")") ctx.indent)
          (tsPres_add _ ("def " ++ toPython (getName name) ++ "(self) -> ") ctx))) ?_
      refine tpresA_bind (tpresA_vn hv) (fun s1 c1 _ => ?_)
      dsimp only
      refine tpresA_of_pres (tsPres_trans (tsPres_add s1 ":" c1)
        (tsPres_addLine _ "raise NotImplementedError" (c1.indent + 1))) ?_
      split
      · refine tpresA_of_pres (tsPres_trans (tsPres_addEmpty _ 1)
          (tsPres_trans
            (tsPres_addLine _ ("@" ++ toPython (getName name) ++ ".setter") c1.indent)
            (tsPres_trans
              (tsPres_addLine _ ("@alias(" ++ sq ++ getName name ++ sq ++ ")") c1.indent)
              (tsPres_add _ ("def " ++ toPython (getName name) ++ "(self, value: ") c1)))) ?_
        refine tpresA_bind (tpresA_vn hv) (fun s2 c2 _ => ?_)
        dsimp only
        exact tpresA_pure_of (tsPres_add s2 ") -> None: ..." c2)
      · exact tpresA_pure
    · simp only [if_neg hal]
      refine tpresA_of_pres (tsPres_trans (tsPres_addLine _ "@property" ctx.indent)
        (tsPres_add _ ("def " ++ toPython (getName name) ++ "(self) -> ") ctx)) ?_
      refine tpresA_bind (tpresA_vn hv) (fun s1 c1 _ => ?_)
      dsimp only
      refine tpresA_of_pres (tsPres_trans (tsPres_add s1 ":" c1)
        (tsPres_addLine _ "raise NotImplementedError" (c1.indent + 1))) ?_
      split
      · refine tpresA_of_pres (tsPres_trans (tsPres_addEmpty _ 1)
          (tsPres_trans
            (tsPres_addLine _ ("@" ++ toPython (getName name) ++ ".setter") c1.indent)
            (tsPres_add _ ("def " ++ toPython (getName name) ++ "(self, value: ") c1))) ?_
        refine tpresA_bind (tpresA_vn hv) (fun s2 c2 _ => ?_)
        dsimp only
        exact tpresA_pure_of (tsPres_add s2 ") -> None: ..." c2)
      · exact tpresA_pure
  · refine tpresA_of_pres (tsPres_add _ (toPython (getName name) ++ ": ") ctx) ?_
    refine tpresA_bind (tpresA_vn hv) (fun s1 c1 _ => ?_)
    dsimp only
    exact tpresA_pure

theorem tpresA_methodLike {vn : TsVisit} (hv : TsPresV vn)
    {name : TsName} {parameters : List TsNode} {ty : TsNode} {s : TsSt} {ctx : TsCtx} :
    TPresA s (methodLike vn name parameters ty s ctx) := by
  unfold methodLike
  refine tpresA_of_pres (tsPres_addEmpty s 1) ?_
  split
  · dsimp only
    split
    · exact tpresA_error
    · exact tpresA_pure_of (tsPres_addLine _ _ ctx.indent)
  · rename_i ms hms
    dsimp only
    split
    · by_cases hal : (toPython (getName name) != getName name) = true
      · simp only [if_pos hal]
        have hp : TsPres (addEmpty s 1)
            (add (addLine (addEmpty s 1)
                ("@alias(" ++ sq ++ getName name ++ sq ++ ")") ctx.indent)
              ("def " ++ toPython (getName name) ++ "(self")
              { ctx with methods := some (methodsAdd ms (toPython (getName name)) (addEmpty s 1).code.length) }) :=
          tsPres_trans (tsPres_addLine _ _ _) (tsPres_add _ _ _)
        refine tpresA_of_pres hp ?_
        refine tpresA_bind (tpresA_tsCommaParams hv) (fun s1 c1 _ => ?_)
        dsimp only
        refine tpresA_of_pres (tsPres_add s1 ") -> " c1) ?_
        refine tpresA_bind (tpresA_vn hv) (fun s2 c2 _ => ?_)
        dsimp only
        refine tpresA_pure_of (tsPres_trans (tsPres_add s2 ": ..." c2) ?_)
        split
        · exact ⟨rfl, [], by simp⟩
        · exact tsPres_refl _
      · simp only [if_neg hal]
        have hp : TsPres (addEmpty s 1)
            (add (addEmpty s 1)
              ("def " ++ toPython (getName name) ++ "(self")
              { ctx with methods := some (methodsAdd ms (toPython (getName name)) (addEmpty s 1).code.length) }) :=
          tsPres_add _ _ _
        refine tpresA_of_pres hp ?_
        refine tpresA_bind (tpresA_tsCommaParams hv) (fun s1 c1 _ => ?_)
        dsimp only
        refine tpresA_of_pres (tsPres_add s1 ") -> " c1) ?_
        refine tpresA_bind (tpresA_vn hv) (fun s2 c2 _ => ?_)
        dsimp only
        refine tpresA_pure_of (tsPres_trans (tsPres_add s2 ": ..." c2) ?_)
        split
        · exact ⟨rfl, [], by simp⟩
        · exact tsPres_refl _
    · exact tpresA_pure_of (tsPres_addLine _ _ ctx.indent)

theorem tpresA_visitNodeCore {vn : TsVisit} (hv : TsPresV vn)
    {node : TsNode} {s : TsSt} {ctx : TsCtx} :
    TPresA s (visitNodeCore vn node s ctx) := by
  cases node
  case SourceFile statements => exact tpresA_tsStmts hv
  case ClassDeclaration name hs members mods => exact tpresA_classLike hv
  case InterfaceDeclaration name hs members mods => exact tpresA_classLike hv
  case HeritageClause types => exact tpresA_tsSepFold hv
  case ExpressionWithTypeArguments expression =>
    exact tpresA_pure_of (tsPres_add s expression ctx)
  case Ctor parameters =>
    dsimp only [visitNodeCore]
    refine tpresA_of_pres (tsPres_trans (tsPres_addEmpty s 1)
      (tsPres_add _ "def __init__(self" ctx)) ?_
    refine tpresA_bind (tpresA_tsCommaParams hv) (fun s1 c1 _ => ?_)
    dsimp only
    exact tpresA_pure_of (tsPres_add s1 "): ..." c1)
  case Parameter name questionToken ty =>
    dsimp only [visitNodeCore]
    by_cases hwn : ctx.withName = true
    · simp only [if_pos hwn]
      cases questionToken
      · try simp only [reduceIte]
        refine tpresA_of_pres (tsPres_add s (toPython (getName name) ++ ": ") ctx) ?_
        refine tpresA_bind (tpresA_vn hv) (fun s1 c1 _ => ?_)
        dsimp only
        exact tpresA_pure
      · simp only [reduceIte]
        refine tpresA_of_pres (tsPres_trans
          (tsPres_add s (toPython (getName name) ++ ": ") ctx)
          (tsPres_trans
            (tsPres_addImport (add s (toPython (getName name) ++ ": ") ctx) "typings" "Optional")
            (tsPres_add (addImport (add s (toPython (getName name) ++ ": ") ctx) "typings" "Optional") "Optional[" ctx))) ?_
        refine tpresA_bind (tpresA_vn hv) (fun s1 c1 _ => ?_)
        dsimp only
        split
        · exact tpresA_pure_of (tsPres_add s1 "] = None" c1)
        · exact tpresA_pure_of (tsPres_add s1 "]" c1)
    · simp only [if_neg hwn]
      cases questionToken
      · try simp only [reduceIte]
        refine tpresA_bind (tpresA_vn hv) (fun s1 c1 _ => ?_)
        dsimp only
        exact tpresA_pure
      · simp only [reduceIte]
        refine tpresA_of_pres (tsPres_trans
          (tsPres_addImport s "typings" "Optional")
          (tsPres_add (addImport s "typings" "Optional") "Optional[" ctx)) ?_
        refine tpresA_bind (tpresA_vn hv) (fun s1 c1 _ => ?_)
        dsimp only
        split
        · exact tpresA_pure_of (tsPres_add s1 "] = None" c1)
        · exact tpresA_pure_of (tsPres_add s1 "]" c1)
  case PropertyDeclaration name modifiers ty => exact tpresA_propLike hv
  case PropertySignature name modifiers ty => exact tpresA_propLike hv
  case MethodDeclaration name parameters ty => exact tpresA_methodLike hv
  case MethodSignature name parameters ty => exact tpresA_methodLike hv
  case FunctionDeclaration name parameters ty =>
    dsimp only [visitNodeCore]
    by_cases hal : (toPython (getName name) != getName name) = true
    · simp only [if_pos hal]
      refine tpresA_of_pres (tsPres_trans (tsPres_addEmpty s 2)
        (tsPres_trans
          (tsPres_addLine (addEmpty s 2)
            ("@alias(" ++ sq ++ getName name ++ sq ++ ")") ctx.indent)
          (tsPres_add
            (addLine (addEmpty s 2) ("@alias(" ++ sq ++ getName name ++ sq ++ ")") ctx.indent)
            ("def " ++ toPython (getName name) ++ "(") ctx))) ?_
      refine tpresA_bind (tpresA_tsSepFold hv) (fun s1 c1 _ => ?_)
      dsimp only
      refine tpresA_of_pres (tsPres_add s1 ") -> " c1) ?_
      refine tpresA_bind (tpresA_vn hv) (fun s2 c2 _ => ?_)
      dsimp only
      exact tpresA_pure_of (tsPres_add s2 ": ..." c2)
    · simp only [if_neg hal]
      refine tpresA_of_pres (tsPres_trans (tsPres_addEmpty s 2)
        (tsPres_add (addEmpty s 2) ("def " ++ toPython (getName name) ++ "(") ctx)) ?_
      refine tpresA_bind (tpresA_tsSepFold hv) (fun s1 c1 _ => ?_)
      dsimp only
      refine tpresA_of_pres (tsPres_add s1 ") -> " c1) ?_
      refine tpresA_bind (tpresA_vn hv) (fun s2 c2 _ => ?_)
      dsimp only
      exact tpresA_pure_of (tsPres_add s2 ": ..." c2)
  case TypeAliasDeclaration name ty =>
    dsimp only [visitNodeCore]
    refine tpresA_of_pres (tsPres_trans (tsPres_addEmpty s 2)
      (tsPres_add (addEmpty s 2) (getName name ++ " = ") ctx)) ?_
    refine tpresA_bind (tpresA_vn hv) (fun s1 c1 _ => ?_)
    dsimp only
    exact tpresA_pure
  case ParenthesizedType ty => exact tpresA_vn hv
  case FunctionType parameters ty =>
    dsimp only [visitNodeCore]
    refine tpresA_of_pres (tsPres_trans (tsPres_addImport s "typings" "Callable")
      (tsPres_trans (tsPres_add _ "Callable[" ctx) (tsPres_add _ "[" ctx))) ?_
    refine tpresA_bind (tpresA_tsFnTypeParams hv) (fun s1 c1 _ => ?_)
    dsimp only
    refine tpresA_of_pres (tsPres_add s1 "], " c1) ?_
    refine tpresA_bind (tpresA_vn hv) (fun s2 c2 _ => ?_)
    dsimp only
    exact tpresA_pure_of (tsPres_add s2 "]" c2)
  case VoidKeyword => exact tpresA_pure_of (tsPres_add s "None" ctx)
  case AnyKeyword => exact tpresA_pure_of (tsPres_add s "Any" ctx)
  case BooleanKeyword => exact tpresA_pure_of (tsPres_add s "bool" ctx)
  case TrueKeyword => exact tpresA_pure_of (tsPres_add s "True" ctx)
  case FalseKeyword => exact tpresA_pure_of (tsPres_add s "False" ctx)
  case NumberKeyword => exact tpresA_pure_of (tsPres_add s "int" ctx)
  case BigIntKeyword => exact tpresA_pure_of (tsPres_add s "int" ctx)
  case StringKeyword => exact tpresA_pure_of (tsPres_add s "str" ctx)
  case IntersectionType types =>
    dsimp only [visitNodeCore]
    split
    · exact tpresA_vn hv
    · exact tpresA_error
  case IndexedAccessType =>
    exact tpresA_pure_of (tsPres_add s "TODO_INDEXED_ACCESS_TYPE" ctx)
  case UnionType types => exact tpresA_tsSepFold hv
  case LiteralType literal =>
    dsimp only [visitNodeCore]
    refine tpresA_of_pres (tsPres_trans (tsPres_addImport s "typings" "Literal")
      (tsPres_add _ "Literal[" ctx)) ?_
    refine tpresA_bind (tpresA_vn hv) (fun s1 c1 _ => ?_)
    dsimp only
    exact tpresA_pure_of (tsPres_add s1 "]" c1)
  case StringLiteral text => exact tpresA_pure_of (tsPres_add s (sq ++ text ++ sq) ctx)
  case FirstLiteralToken text => exact tpresA_pure_of (tsPres_add s text ctx)
  case NullKeyword => exact tpresA_pure_of (tsPres_add s "None" ctx)
  case UndefinedKeyword => exact tpresA_pure_of (tsPres_add s "None" ctx)
  case TypeQuery exprName =>
    exact tpresA_pure_of (tsPres_trans (tsPres_addImport s "typings" "Type")
      (tsPres_trans (tsPres_add _ "Type[" ctx)
        (tsPres_trans (tsPres_add _ exprName ctx) (tsPres_add _ "]" ctx))))
  case TypeLiteral members => exact tpresA_error
  case TupleType elements =>
    dsimp only [visitNodeCore]
    refine tpresA_of_pres (tsPres_trans (tsPres_addImport s "typings" "Tuple")
      (tsPres_add _ "Tuple[" ctx)) ?_
    refine tpresA_bind (tpresA_tsSepFold hv) (fun s1 c1 _ => ?_)
    dsimp only
    exact tpresA_pure_of (tsPres_add s1 "]" c1)
  case NamedTupleMember ty => exact tpresA_vn hv
  case ArrayType elementType =>
    dsimp only [visitNodeCore]
    refine tpresA_of_pres (tsPres_trans (tsPres_addImport s "typings" "List")
      (tsPres_add _ "List[" ctx)) ?_
    refine tpresA_bind (tpresA_vn hv) (fun s1 c1 _ => ?_)
    dsimp only
    exact tpresA_pure_of (tsPres_add s1 "]" c1)
  case TypeReference typeName typeArguments =>
    dsimp only [visitNodeCore]
    by_cases h1 : (typeName == "Promise") = true
    · simp only [if_pos h1]
      try dsimp only
      split
      · refine tpresA_of_pres (tsPres_trans (tsPres_addImport s "typings" "Awaitable")
          (tsPres_trans (tsPres_add (addImport s "typings" "Awaitable") "Awaitable" { ctx with isAsync := true })
            (tsPres_add (add (addImport s "typings" "Awaitable") "Awaitable" { ctx with isAsync := true }) "[" { ctx with isAsync := true }))) ?_
        refine tpresA_bind (tpresA_tsSepFold hv) (fun s1 c1 _ => ?_)
        dsimp only
        exact tpresA_pure_of (tsPres_add s1 "]" c1)
      · exact tpresA_pure_of (tsPres_trans (tsPres_addImport s "typings" "Awaitable")
          (tsPres_add (addImport s "typings" "Awaitable") "Awaitable" { ctx with isAsync := true }))
    · simp only [if_neg h1]
      by_cases h2 : (typeName == "Map") = true
      · simp only [if_pos h2]
        try dsimp only
        split
        · refine tpresA_of_pres (tsPres_trans (tsPres_addImport s "typings" "Dict")
            (tsPres_trans (tsPres_add (addImport s "typings" "Dict") "Dict" ctx)
              (tsPres_add (add (addImport s "typings" "Dict") "Dict" ctx) "[" ctx))) ?_
          refine tpresA_bind (tpresA_tsSepFold hv) (fun s1 c1 _ => ?_)
          dsimp only
          exact tpresA_pure_of (tsPres_add s1 "]" c1)
        · exact tpresA_pure_of (tsPres_trans (tsPres_addImport s "typings" "Dict")
            (tsPres_add (addImport s "typings" "Dict") "Dict" ctx))
      · simp only [if_neg h2]
        by_cases h3 : (typeName == "IterableIterator") = true
        · simp only [if_pos h3]
          try dsimp only
          split
          · refine tpresA_of_pres (tsPres_trans (tsPres_addImport s "typings" "Iterable")
              (tsPres_trans (tsPres_add (addImport s "typings" "Iterable") "Iterable" ctx)
                (tsPres_add (add (addImport s "typings" "Iterable") "Iterable" ctx) "[" ctx))) ?_
            refine tpresA_bind (tpresA_tsSepFold hv) (fun s1 c1 _ => ?_)
            dsimp only
            exact tpresA_pure_of (tsPres_add s1 "]" c1)
          · exact tpresA_pure_of (tsPres_trans (tsPres_addImport s "typings" "Iterable")
              (tsPres_add (addImport s "typings" "Iterable") "Iterable" ctx))
        · simp only [if_neg h3]
          by_cases h4 : (typeName == "This") = true
          · simp only [if_pos h4]
            try dsimp only
            split
            · refine tpresA_of_pres (tsPres_trans (tsPres_addImport s "typings" "Self")
                (tsPres_trans (tsPres_add (addImport s "typings" "Self") "Self" ctx)
                  (tsPres_add (add (addImport s "typings" "Self") "Self" ctx) "[" ctx))) ?_
              refine tpresA_bind (tpresA_tsSepFold hv) (fun s1 c1 _ => ?_)
              dsimp only
              exact tpresA_pure_of (tsPres_add s1 "]" c1)
            · exact tpresA_pure_of (tsPres_trans (tsPres_addImport s "typings" "Self")
                (tsPres_add (addImport s "typings" "Self") "Self" ctx))
          · simp only [if_neg h4]
            try dsimp only
            split
            · refine tpresA_of_pres (tsPres_trans (tsPres_add s typeName ctx)
                (tsPres_add (add s typeName ctx) "[" ctx)) ?_
              refine tpresA_bind (tpresA_tsSepFold hv) (fun s1 c1 _ => ?_)
              dsimp only
              exact tpresA_pure_of (tsPres_add s1 "]" c1)
            · exact tpresA_pure_of (tsPres_add s typeName ctx)
  case FirstStatement decls => exact tpresA_tsStmts hv
  case VariableDeclaration name =>
    exact tpresA_pure_of (tsPres_trans (tsPres_addEmpty s 2)
      (tsPres_add (addEmpty s 2) (getName name ++ ": Any") ctx))
  case ModuleDeclaration => exact tpresA_pure
  case UnknownKind kind => exact tpresA_pure

/-- Traversal-wide preservation at every fuel level: a successful
`visit_node` never changes the synthesized-type list and only extends
the import dict's key sequence. -/
theorem visitNode_tsPres : ∀ fuel : Nat, TsPresV (visitNode fuel) := by
  intro fuel
  induction fuel with
  | zero => intro n s ctx s2 ctx2 h; exact absurd h (by simp [visitNode])
  | succ fuel ih =>
    intro n s ctx s2 ctx2 h
    simp only [visitNode] at h
    exact tpresA_visitNodeCore ih s2 ctx2 h

theorem addImport_code (s : TsSt) (f imp : String) :
    (addImport s f imp).code = s.code := by
  unfold addImport; split <;> rfl

theorem insertTypes_nil {s : TsSt} (h : s.newTypes = []) : insertTypes s = s := by
  unfold insertTypes
  rw [h]
  rfl

theorem listInsertAt_length (l : List String) (i : Nat) (x : String) (h : i ≤ l.length) :
    (listInsertAt l i x).length = l.length + 1 := by
  simp [listInsertAt]
  omega

theorem insertImportsGo_eq :
    ∀ (imps : List (String × List String)) (code : List String) (idx : Nat),
      idx ≤ code.length →
      insertImportsGo code idx imps =
        code.take idx ++ imps.map importLine ++ code.drop idx := by
  intro imps
  induction imps with
  | nil => intro code idx h; simp [insertImportsGo]
  | cons p rest ih =>
    intro code idx h
    obtain ⟨f, is⟩ := p
    show insertImportsGo (listInsertAt code idx (importLine (f, is))) (idx + 1) rest = _
    rw [ih _ (idx + 1) (by rw [listInsertAt_length code idx _ h]; omega)]
    unfold listInsertAt
    have htk : (code.take idx).length = idx := List.length_take_of_le h
    rw [show idx + 1 = (code.take idx).length + 1 from by rw [htk]]
    rw [List.take_append]
    rw [List.drop_append]
    simp

/-- Claim C6: during a traversal pass of the TypeScript-grammar engine
no import statement or synthesized type declaration enters the output —
every successful visit leaves the synthesized-type list unchanged and
only extends the import dict in first-use key order (first conjunct);
the one construct that would synthesize a type, `TypeLiteral`, raises
`NameError` because `DtsCodegen` is undefined, so a completed pass never
holds synthesized types (second conjunct); and after a completed
traversal, writing the output inserts exactly the accumulated import
statements (with the two woma imports added) at the very top, in
first-use order, above the traversal's code (third conjunct, with the
type-declaration insertion vacuous on the empty list). -/
theorem c6_imports_and_types_inserted_after_traversal :
    (∀ (fuel : Nat) (n : TsNode) (s : TsSt) (ctx : TsCtx) (s2 : TsSt) (ctx2 : TsCtx),
       visitNode fuel n s ctx = .ok (s2, ctx2) →
       s2.newTypes = s.newTypes ∧
       ∃ t, s2.imports.map Prod.fst = s.imports.map Prod.fst ++ t) ∧
    (∀ (fuel : Nat) (members : List TsNode) (s : TsSt) (ctx : TsCtx),
       visitNode (fuel + 1) (.TypeLiteral members) s ctx = .error "NameError") ∧
    (∀ (fuel : Nat) (ast : TsNode) (s2 : TsSt), traverse fuel ast = .ok s2 →
       s2.newTypes = [] ∧
       toFileLines s2 =
         (addImport (addImport s2 "woma.host.bindgen" "external")
             "woma.host.bindgen" "alias").imports.map importLine ++ s2.code) := by
  refine ⟨?_, ?_, ?_⟩
  · intro fuel n s ctx s2 ctx2 h
    exact visitNode_tsPres fuel n s ctx s2 ctx2 h
  · intro fuel members s ctx
    rfl
  · intro fuel ast s2 h
    unfold traverse at h
    simp only [Bind.bind, Except.bind] at h
    split at h
    · exact absurd h (by simp)
    · rename_i pr heq
      obtain ⟨sv, cv⟩ := pr
      dsimp only at h
      cases h
      obtain ⟨hnt, _⟩ := visitNode_tsPres fuel ast initTsSt initTsCtx sv cv heq
      have hnt2 : (flush sv).newTypes = [] := by
        rw [flush_newTypes]
        exact hnt
      refine ⟨hnt2, ?_⟩
      unfold toFileLines
      rw [insertTypes_nil hnt2]
      unfold insertImports
      rw [insertImportsGo_eq _ _ 0 (by omega)]
      rw [addImport_code, addImport_code]
      simp

theorem c6_imports_and_types_inserted_after_traversal_witness :
    (∃ s2 ctx2,
      visitNode 10 (.InterfaceDeclaration (.ident "Foo") []
          [.PropertySignature (.ident "barBaz") [] .StringKeyword] [])
        initTsSt initTsCtx = .ok (s2, ctx2) ∧
      s2.newTypes = initTsSt.newTypes) ∧
    visitNode 3 (.TypeLiteral []) initTsSt initTsCtx = .error "NameError" ∧
    ∃ s2,
      traverse 10 (.InterfaceDeclaration (.ident "Foo") []
          [.PropertySignature (.ident "barBaz") [] .StringKeyword] []) = .ok s2 ∧
      s2.newTypes = [] ∧
      toFileLines s2 =
        (addImport (addImport s2 "woma.host.bindgen" "external")
            "woma.host.bindgen" "alias").imports.map importLine ++ s2.code ∧
      toFileLines s2 =
        ["from typings import Protocol",
         "from woma.host.bindgen import external, alias",
         "", "", "@external", "class Foo(Protocol):", "",
         "    @property",
         "    @alias(" ++ sq ++ "barBaz" ++ sq ++ ")",
         "    def bar_baz(self) -> str:",
         "        raise NotImplementedError",
         "",
         "    @bar_baz.setter",
         "    @alias(" ++ sq ++ "barBaz" ++ sq ++ ")",
         "    def bar_baz(self, value: str) -> None: ..."] :=
  ⟨⟨_, _, rfl,
    (c6_imports_and_types_inserted_after_traversal.1 10
      (.InterfaceDeclaration (.ident "Foo") []
        [.PropertySignature (.ident "barBaz") [] .StringKeyword] [])
      initTsSt initTsCtx _ _ (by rfl)).1⟩,
   c6_imports_and_types_inserted_after_traversal.2.1 2 [] initTsSt initTsCtx,
   _, rfl,
   (c6_imports_and_types_inserted_after_traversal.2.2 10
      (.InterfaceDeclaration (.ident "Foo") []
        [.PropertySignature (.ident "barBaz") [] .StringKeyword] [])
      _ (by rfl)).1,
   (c6_imports_and_types_inserted_after_traversal.2.2 10
      (.InterfaceDeclaration (.ident "Foo") []
        [.PropertySignature (.ident "barBaz") [] .StringKeyword] [])
      _ (by rfl)).2,
   by rfl⟩

end NB
